import Mathlib

/-!
Formal model of the AmemDSPy agentic memory system
(`src/agentic_memory/{field_handlers,memory_note,memory_system}.py`).

The Python code is shallowly embedded:
* Python runtime values are the inductive `PyVal`.  Python strings come in
  several symbolic flavours: a literal string (`vStr`), the output of
  `json.dumps` on a JSON-serializable value (`vJson`), the output of
  `datetime.isoformat` (`vIso`), and the output of `str` on an `int`
  (`vDec`).  The Python `json` and `datetime` libraries are external to the
  repository; they are embedded through their contract: `json.loads` applied
  to the output of `json.dumps` recovers the value, `datetime.fromisoformat`
  applied to the output of `isoformat` recovers the instant, and `int(str(n))`
  recovers `n`.  A literal string fed to `json.loads` is parsed by a real JSON
  parser (`jsonParse`) below, and a literal string fed to
  `datetime.fromisoformat` by a real ISO-8601 parser (`isoParse`).
* A `datetime` object is modelled as an abstract instant `Nat`; `datetime.now`
  becomes an explicit `now : Nat` parameter, and the instant denoted by a
  parsed literal timestamp is named through an injective encoding of its
  calendar fields and offset (`isoEncode`).
* Python dictionaries are association lists without duplicate keys, in
  insertion order, as Python guarantees.
* Raising an exception is modelled by `Option`/`none` on the functions that
  can raise.
-/

set_option autoImplicit false

namespace Amem

/-- A Python `float` as `json.loads` produces one: either the finite decimal
`m * 10 ^ e` its source text denotes (trailing zeros of the mantissa
stripped, so equal decimals share one representation), or one of the
constants `Infinity`, `-Infinity`, `NaN`.  The rounding of a decimal to
binary64, the signed zero, the shortest-repr printing of floats and the
numeric `==` between an `int` and a `float` are not modelled; no verified
property constructs a float. -/
inductive FloatVal where
  | finite (m : Int) (e : Int)
  | inf
  | ninf
  | nan
  deriving DecidableEq, Repr

/-- JSON-serializable values, the domain of `json.dumps` and the codomain of
`json.loads`. -/
inductive JVal where
  | jStr (s : String)
  | jInt (n : Int)
  | jFloat (x : FloatVal)
  | jBool (b : Bool)
  | jNull
  | jList (l : List JVal)
  | jDict (d : List (String × JVal))

/-- Python runtime values as the memory system manipulates them.  The four
string flavours `vStr`, `vJson`, `vIso`, `vDec` all denote Python `str`
objects; `vJson j` is the string `json.dumps(j)`, `vIso t` is the string
`datetime.isoformat` of the instant `t`, and `vDec n` is the string `str(n)`
of an integer. -/
inductive PyVal where
  | vStr (s : String)
  | vJson (j : JVal)
  | vIso (t : Nat)
  | vDec (n : Int)
  | vInt (n : Int)
  | vFloat (x : FloatVal)
  | vBool (b : Bool)
  | vDT (t : Nat)
  | vList (l : List PyVal)
  | vDict (d : List (String × PyVal))
  | vNone

namespace PyVal

/-- `isinstance(value, str)` for the embedded value universe. -/
def isStr : PyVal → Bool
  | vStr _ | vJson _ | vIso _ | vDec _ => true
  | _ => false

end PyVal

/-! ### Association lists: the embedding of Python `dict` -/

/-- `d.get(k)` / `d[k]`: first binding of `k`. -/
def alookup {α : Type} : List (String × α) → String → Option α
  | [], _ => none
  | (k', v) :: t, k => if k' = k then some v else alookup t k

/-- `d.pop(k, None)`: remove every binding of `k` (Python dictionaries hold a
key at most once). -/
def aremove {α : Type} : List (String × α) → String → List (String × α)
  | [], _ => []
  | (k', v) :: t, k => if k' = k then aremove t k else (k', v) :: aremove t k

/-- `d[k] = v`: overwrite the first binding of `k` in place, or append a new
binding, as Python dictionaries do. -/
def aset {α : Type} : List (String × α) → String → α → List (String × α)
  | [], k, v => [(k, v)]
  | (k', v') :: t, k, v =>
      if k' = k then (k, v) :: t else (k', v') :: aset t k v

/-- `k in d`. -/
def ahas {α : Type} (l : List (String × α)) (k : String) : Bool :=
  (alookup l k).isSome

/-- Effectful map over a list in the error monad: `none` as soon as one
element fails, the embedding of a Python loop that can raise. -/
def amapM {α β : Type} (f : α → Option β) : List α → Option (List β)
  | [] => some []
  | x :: t =>
      match f x, amapM f t with
      | some y, some ys => some (y :: ys)
      | _, _ => none

/-- Effectful left fold in the error monad. -/
def afoldlM {α β : Type} (f : β → α → Option β) : β → List α → Option β
  | b, [] => some b
  | b, x :: t =>
      match f b x with
      | some b' => afoldlM f b' t
      | none => none

/-! ### The `str` builtin

`pyToStr` is `str(value)` landing back in the value universe (the result is
one of the string flavours); `pyToStrPlain` is `str(value)` where a plain
`String` is required.  `str` applied to a list, a dictionary or a `datetime`
returns a textual repr whose exact characters no verified property observes;
`pyToStr` uses an inert placeholder for those and `pyToStrPlain` declines
(`none`), and likewise declines on the symbolic string flavours whose
character content is abstract. -/

/-- A textual tag distinguishing floats inside the `str(float)` placeholder. -/
def floatTag : FloatVal → String
  | .finite m e => toString m ++ "e" ++ toString e
  | .inf => "inf"
  | .ninf => "-inf"
  | .nan => "nan"

def pyToStr : PyVal → PyVal
  | .vStr s => .vStr s
  | .vJson j => .vJson j
  | .vIso t => .vIso t
  | .vDec n => .vDec n
  | .vInt n => .vDec n
  | .vFloat x => .vStr ("!float-repr:" ++ floatTag x)
  | .vBool b => .vStr (cond b "True" "False")
  | .vNone => .vStr "None"
  | .vDT t => .vStr ("!datetime-repr:" ++ toString t)
  | .vList _ => .vStr "!list-repr"
  | .vDict _ => .vStr "!dict-repr"

def pyToStrPlain : PyVal → Option String
  | .vStr s => some s
  | .vInt n => some (toString n)
  | .vDec n => some (toString n)
  | .vBool b => some (cond b "True" "False")
  | .vNone => some "None"
  | _ => none

/-! ### The `json` library -/

mutual
/-- Conversion of a JSON value back to a Python value, the shape of the result
of `json.loads`. -/
def jToPy : JVal → PyVal
  | .jStr s => .vStr s
  | .jInt n => .vInt n
  | .jFloat x => .vFloat x
  | .jBool b => .vBool b
  | .jNull => .vNone
  | .jList l => .vList (jToPyList l)
  | .jDict d => .vDict (jToPyDict d)

def jToPyList : List JVal → List PyVal
  | [] => []
  | x :: xs => jToPy x :: jToPyList xs

def jToPyDict : List (String × JVal) → List (String × PyVal)
  | [] => []
  | (k, v) :: xs => (k, jToPy v) :: jToPyDict xs
end

mutual
/-- `json.dumps`: succeeds exactly on JSON-serializable values, raising
`TypeError` (here `none`) on a `datetime` or on anything containing one.
Applying `json.dumps` to one of the symbolic string flavours would produce a
quoted string whose content is abstract; it is modelled as undefined and no
verified property exercises it. -/
def toJson : PyVal → Option JVal
  | .vStr s => some (.jStr s)
  | .vInt n => some (.jInt n)
  | .vFloat x => some (.jFloat x)
  | .vBool b => some (.jBool b)
  | .vNone => some .jNull
  | .vList l => (toJsonList l).map .jList
  | .vDict d => (toJsonDict d).map .jDict
  | _ => none

def toJsonList : List PyVal → Option (List JVal)
  | [] => some []
  | x :: xs =>
      match toJson x, toJsonList xs with
      | some j, some js => some (j :: js)
      | _, _ => none

def toJsonDict : List (String × PyVal) → Option (List (String × JVal))
  | [] => some []
  | (k, v) :: xs =>
      match toJson v, toJsonDict xs with
      | some j, some js => some ((k, j) :: js)
      | _, _ => none
end

/-- The Python `==` on floats: `nan` compares unequal to everything,
itself included; finite floats compare by their (normalized) value. -/
def floatEqB : FloatVal → FloatVal → Bool
  | .finite a ea, .finite b eb => a = b && ea = eb
  | .inf, .inf => true
  | .ninf, .ninf => true
  | _, _ => false

mutual
/-- The Python `==` comparison on the embedded values, used by the
keyword-value filter.  Structural on the symbolic string flavours: two
symbolically distinct strings (for example `vDec 5` and `vStr "5"`) compare
unequal here even though Python would compare their characters; no verified
property compares values across flavours. -/
def pyEqB : PyVal → PyVal → Bool
  | .vStr a, .vStr b => a = b
  | .vJson a, .vJson b => jEqB a b
  | .vIso a, .vIso b => a = b
  | .vDec a, .vDec b => a = b
  | .vInt a, .vInt b => a = b
  | .vFloat a, .vFloat b => floatEqB a b
  | .vBool a, .vBool b => a = b
  | .vDT a, .vDT b => a = b
  | .vList a, .vList b => pyEqListB a b
  | .vDict a, .vDict b => pyEqDictB a b
  | .vNone, .vNone => true
  | _, _ => false

def pyEqListB : List PyVal → List PyVal → Bool
  | [], [] => true
  | a :: as', b :: bs => pyEqB a b && pyEqListB as' bs
  | _, _ => false

def pyEqDictB : List (String × PyVal) → List (String × PyVal) → Bool
  | [], [] => true
  | (ka, va) :: as', (kb, vb) :: bs =>
      ka = kb && pyEqB va vb && pyEqDictB as' bs
  | _, _ => false

def jEqB : JVal → JVal → Bool
  | .jStr a, .jStr b => a = b
  | .jInt a, .jInt b => a = b
  | .jFloat a, .jFloat b => a = b
  | .jBool a, .jBool b => a = b
  | .jNull, .jNull => true
  | .jList a, .jList b => jEqListB a b
  | .jDict a, .jDict b => jEqDictB a b
  | _, _ => false

def jEqListB : List JVal → List JVal → Bool
  | [], [] => true
  | a :: as', b :: bs => jEqB a b && jEqListB as' bs
  | _, _ => false

def jEqDictB : List (String × JVal) → List (String × JVal) → Bool
  | [], [] => true
  | (ka, va) :: as', (kb, vb) :: bs =>
      ka = kb && jEqB va vb && jEqDictB as' bs
  | _, _ => false
end

/-! ### `json.loads` on literal strings: a JSON parser

Recursive-descent parser matching the grammar the default `json.loads`
accepts: the six JSON value kinds, numbers per
`(0|[1-9][0-9]*)([.][0-9]+)?([eE][+-]?[0-9]+)?` (a fraction or exponent
making a `float`), the constants `NaN`, `Infinity` and `-Infinity`, string
escapes including `\uXXXX` with surrogate pairs, and strict rejection of
unescaped control characters.  Where `json.loads` stops a number early (a
leading zero followed by digits, a dangling fraction dot or exponent) the
trailing characters make every enclosing context fail, so the parse as a
whole fails exactly when `json.loads` raises `JSONDecodeError`.  The
interpreter's recursion limit on deeply nested documents is a resource
bound, not part of the grammar, and is not modelled. -/

def skipWs : List Char → List Char
  | c :: cs =>
      if c = ' ' || c = '\t' || c = '\n' || c = '\r' then skipWs cs else c :: cs
  | [] => []

def digitsAux : List Char → Nat → Nat × List Char
  | c :: cs, acc =>
      if c.isDigit then digitsAux cs (acc * 10 + (c.toNat - 48)) else (acc, c :: cs)
  | [], acc => (acc, [])

/-- Parse one or more decimal digits. -/
def parseJNat : List Char → Option (Nat × List Char)
  | c :: cs => if c.isDigit then some (digitsAux cs (c.toNat - 48)) else none
  | [] => none

/-- Greedy decimal digits with their count: value, how many, rest. -/
def digitsCnt : List Char → Nat → Nat → Nat × Nat × List Char
  | c :: cs, acc, n =>
      if c.isDigit then digitsCnt cs (acc * 10 + (c.toNat - 48)) (n + 1)
      else (acc, n, c :: cs)
  | [], acc, n => (acc, n, [])

/-- Move factors of ten from the mantissa into the exponent. -/
def stripTenAux : Int → Int → Nat → Int × Int
  | m, e, 0 => (m, e)
  | m, e, Nat.succ fuel =>
      if m % 10 = 0 ∧ m ≠ 0 then stripTenAux (m / 10) (e + 1) fuel else (m, e)

/-- The canonical finite float of value `m * 10 ^ e`: trailing zeros of the
mantissa stripped, zero always `(0, 0)`, so equal decimals coincide. -/
def normFloat (m e : Int) : FloatVal :=
  if m = 0 then .finite 0 0
  else
    let p := stripTenAux m e m.natAbs
    .finite p.1 p.2

/-- The JSON fraction `([.][0-9]+)?`: digits value and count, 0 digits when
absent, failure on a dot without digits. -/
def parseJFrac : List Char → Option (Nat × Nat × List Char)
  | '.' :: c :: cs =>
      if c.isDigit then
        let p := digitsCnt cs (c.toNat - 48) 1
        some (p.1, p.2.1, p.2.2)
      else none
  | '.' :: [] => none
  | cs => some (0, 0, cs)

/-- The JSON exponent `([eE][+-]?[0-9]+)?`: signed value (0 when absent) and
a presence flag, failure on a dangling `e`. -/
def parseJExp : List Char → Option (Int × Bool × List Char)
  | c :: cs =>
      if c = 'e' ∨ c = 'E' then
        match (match cs with
               | '+' :: r => ((1 : Int), r)
               | '-' :: r => ((-1 : Int), r)
               | r => ((1 : Int), r)) with
        | (sgn, d :: dd) =>
            if d.isDigit then
              let p := digitsCnt dd (d.toNat - 48) 1
              some (sgn * (p.1 : Int), true, p.2.2)
            else none
        | (_, []) => none
      else some (0, false, c :: cs)
  | [] => some (0, false, [])

/-- One JSON number after the optional minus sign.  The integer part is `0`
or starts with a nonzero digit (a leading zero is consumed alone, leaving
the following digits to fail in the enclosing context, as the scanner of
`json.loads` does); returns the mantissa and decimal exponent of the
denoted value and whether a fraction or exponent made it a `float`. -/
def parseJNumBody : List Char → Option ((Int × Int × Bool) × List Char)
  | c :: cs =>
      if c.isDigit then
        let ipRest : Nat × List Char :=
          if c = '0' then (0, cs)
          else
            let p := digitsCnt cs (c.toNat - 48) 1
            (p.1, p.2.2)
        match parseJFrac ipRest.2 with
        | none => none
        | some (fv, fn, rest2) =>
            match parseJExp rest2 with
            | none => none
            | some (ex, hasExp, rest3) =>
                some ((((ipRest.1 * 10 ^ fn + fv : Nat) : Int),
                       ex - (fn : Int), decide (fn ≠ 0) || hasExp), rest3)
      else none
  | [] => none

def escChar (e : Char) : Option Char :=
  if e = 'n' then some '\n'
  else if e = 't' then some '\t'
  else if e = 'r' then some '\r'
  else if e = 'b' then some (Char.ofNat 8)
  else if e = 'f' then some (Char.ofNat 12)
  else if e = '"' then some '"'
  else if e = '\\' then some '\\'
  else if e = '/' then some '/'
  else none

/-- Value of one hexadecimal digit, either letter case. -/
def hexDigit (c : Char) : Option Nat :=
  if c.isDigit then some (c.toNat - 48)
  else if 'a' ≤ c ∧ c ≤ 'f' then some (c.toNat - 87)
  else if 'A' ≤ c ∧ c ≤ 'F' then some (c.toNat - 55)
  else none

/-- Value of a run of hexadecimal digits. -/
def hexQuad (cs : List Char) : Option Nat :=
  cs.foldl (fun acc c =>
    match acc, hexDigit c with
    | some a, some v => some (a * 16 + v)
    | _, _ => none) (some 0)

/-- Body of a JSON string after the opening quote.  A `\uXXXX` escape yields
the scalar with that code, a high surrogate combining with an immediately
following escaped low surrogate.  A lone surrogate would produce a Python
`str` that the embedding's scalar-sequence strings cannot hold; such input
is outside the modelled string universe and treated as a parse failure, and
no verified property feeds one. -/
def parseJStr : List Char → List Char → Option (String × List Char)
  | [], _ => none
  | '\\' :: 'u' :: a :: b :: c :: d :: rest, acc =>
      (match hexQuad [a, b, c, d] with
       | none => none
       | some n =>
           if 55296 ≤ n ∧ n ≤ 56319 then
             match rest with
             | '\\' :: 'u' :: a2 :: b2 :: c2 :: d2 :: rest2 =>
                 (match hexQuad [a2, b2, c2, d2] with
                  | none => none
                  | some n2 =>
                      if 56320 ≤ n2 ∧ n2 ≤ 57343 then
                        parseJStr rest2
                          (Char.ofNat (65536 + (n - 55296) * 1024 + (n2 - 56320))
                            :: acc)
                      else none)
             | _ => none
           else if 56320 ≤ n ∧ n ≤ 57343 then none
           else parseJStr rest (Char.ofNat n :: acc))
  | '\\' :: e :: rest, acc => (escChar e).bind (fun c => parseJStr rest (c :: acc))
  | '"' :: rest, acc => some (⟨acc.reverse⟩, rest)
  | c :: rest, acc => if c.toNat < 32 then none else parseJStr rest (c :: acc)

/-- Object pairs to their dictionary, as `dict(pairs)` builds it: on a
repeated key the last value wins, at the key's first position. -/
def dedupPairs (l : List (String × JVal)) : List (String × JVal) :=
  l.foldl (fun acc p => aset acc p.1 p.2) []

mutual
def parseJ : Nat → List Char → Option (JVal × List Char)
  | 0, _ => none
  | Nat.succ fuel, input =>
      match skipWs input with
      | 'n' :: 'u' :: 'l' :: 'l' :: rest => some (.jNull, rest)
      | 't' :: 'r' :: 'u' :: 'e' :: rest => some (.jBool true, rest)
      | 'f' :: 'a' :: 'l' :: 's' :: 'e' :: rest => some (.jBool false, rest)
      | 'N' :: 'a' :: 'N' :: rest => some (.jFloat .nan, rest)
      | 'I' :: 'n' :: 'f' :: 'i' :: 'n' :: 'i' :: 't' :: 'y' :: rest =>
          some (.jFloat .inf, rest)
      | '"' :: rest => (parseJStr rest []).map (fun p => (JVal.jStr p.1, p.2))
      | '[' :: rest =>
          (match skipWs rest with
           | ']' :: rest2 => some (.jList [], rest2)
           | _ => (parseJItems fuel rest).map (fun p => (JVal.jList p.1, p.2)))
      | '{' :: rest =>
          (match skipWs rest with
           | '}' :: rest2 => some (.jDict [], rest2)
           | _ => (parseJFields fuel rest).map
               (fun p => (JVal.jDict (dedupPairs p.1), p.2)))
      | '-' :: 'I' :: 'n' :: 'f' :: 'i' :: 'n' :: 'i' :: 't' :: 'y' :: rest =>
          some (.jFloat .ninf, rest)
      | '-' :: rest =>
          (parseJNumBody rest).map (fun p =>
            (if p.1.2.2 then JVal.jFloat (normFloat (-p.1.1) p.1.2.1)
             else JVal.jInt (-p.1.1), p.2))
      | other =>
          (parseJNumBody other).map (fun p =>
            (if p.1.2.2 then JVal.jFloat (normFloat p.1.1 p.1.2.1)
             else JVal.jInt p.1.1, p.2))

def parseJItems : Nat → List Char → Option (List JVal × List Char)
  | 0, _ => none
  | Nat.succ fuel, input => do
      let (v, rest) ← parseJ fuel input
      match skipWs rest with
      | ',' :: rest2 => (parseJItems fuel rest2).map (fun p => (v :: p.1, p.2))
      | ']' :: rest2 => some ([v], rest2)
      | _ => none

def parseJFields : Nat → List Char → Option (List (String × JVal) × List Char)
  | 0, _ => none
  | Nat.succ fuel, input =>
      match skipWs input with
      | '"' :: rest => do
          let (k, rest1) ← parseJStr rest []
          match skipWs rest1 with
          | ':' :: rest2 => do
              let (v, rest3) ← parseJ fuel rest2
              (match skipWs rest3 with
               | ',' :: rest4 =>
                   (parseJFields fuel rest4).map (fun p => ((k, v) :: p.1, p.2))
               | '}' :: rest4 => some ([(k, v)], rest4)
               | _ => none)
          | _ => none
      | _ => none
end

/-- `json.loads` on a literal string: the whole input must be one JSON value. -/
def jsonParse (s : String) : Option JVal :=
  match parseJ (s.length + 1) s.toList with
  | some (v, rest) => if (skipWs rest).isEmpty then some v else none
  | none => none

/-- `json.loads` applied to an embedded Python string (any flavour).  On the
output of `json.dumps` it recovers the dumped value, which is the library
contract the repository relies on; `str(n)` of an integer parses as that
integer; an `isoformat` string is not valid JSON. -/
def jsonLoadsOfStr : PyVal → Option PyVal
  | .vJson j => some (jToPy j)
  | .vStr s => (jsonParse s).map jToPy
  | .vDec n => some (.vInt n)
  | _ => none

/-- The Python decimal `int(str)` parser on a literal string: an optional
minus sign followed by digits.  Tolerated whitespace, a plus sign and digit
underscores are not modelled; no verified property feeds such a string. -/
def strToIntPy (s : String) : Option Int :=
  match s.toList with
  | '-' :: rest =>
      match parseJNat rest with
      | some (n, []) => some (-(n : Int))
      | _ => none
  | cs =>
      match parseJNat cs with
      | some (n, []) => some ((n : Int))
      | _ => none

/-- `int(float)`: truncation toward zero of `m * 10 ^ e`. -/
def floatTrunc (m e : Int) : Int :=
  if 0 ≤ e then m * (10 : Int) ^ e.toNat
  else m.sign * ((m.natAbs / 10 ^ (-e).toNat : Nat) : Int)

/-- `int(value)` for a value that is not already an `int`: parses a decimal
string, truncates a finite float, and raises (`none`) on an infinity or a
`nan` as `int(float)` does. -/
def intOfPy : PyVal → Option Int
  | .vStr s => strToIntPy s
  | .vDec n => some n
  | .vJson (.jInt n) => some n
  | .vFloat (.finite m e) => some (floatTrunc m e)
  | _ => none

/-! ### `datetime.fromisoformat` on literal strings: an ISO-8601 parser

The grammar is the one `datetime.fromisoformat` documents through
CPython 3.10, which is exactly the set of strings `datetime.isoformat` can
emit: `YYYY-MM-DD[*HH[:MM[:SS[.fff[fff]]]][+HH:MM[:SS[.ffffff]]]]`, with
`*` any single separator character and either sign on the offset.  Range
validation mirrors the `datetime` and `timezone` constructors (year at
least 1, calendar-valid day, hour to 23, minute and second to 59, offset
magnitude under 24 hours).  CPython 3.11 widened `fromisoformat` to a
superset (compact and week dates, `Z`, free-length fractions); the program
never produces such a string and no verified property feeds one. -/

/-- Two digit characters as a number. -/
def digit2 (a b : Char) : Option Nat :=
  if a.isDigit ∧ b.isDigit then some ((a.toNat - 48) * 10 + (b.toNat - 48))
  else none

/-- Four digit characters as a number. -/
def digit4 (a b c d : Char) : Option Nat :=
  match digit2 a b, digit2 c d with
  | some hi, some lo => some (hi * 100 + lo)
  | _, _ => none

def isLeap (y : Nat) : Bool := y % 4 = 0 && (y % 100 ≠ 0 || y % 400 = 0)

def daysInMonth (y mo : Nat) : Nat :=
  if mo = 2 then (if isLeap y then 29 else 28)
  else if mo = 4 ∨ mo = 6 ∨ mo = 9 ∨ mo = 11 then 30
  else 31

/-- The instant a parsed timestamp denotes, as an abstract `Nat` name: an
injective mixed-radix packing of the calendar fields with the optional
offset (`none` a naive datetime, `some o` an offset of `o` microseconds,
`|o|` under 24 hours).  Equal datetimes get equal names; no arithmetic is
ever performed on the name. -/
def isoEncode (y mo d h mi s us : Nat) (tz : Option Int) : Nat :=
  let wall := (((((y * 13 + mo) * 32 + d) * 24 + h) * 60 + mi) * 60 + s)
    * 1000000 + us
  wall * 172800000002
    + (match tz with
       | none => 0
       | some o => 1 + (o + 86400000000).toNat)

/-- `HH[:MM[:SS[.fff[fff]]]]`: the time-of-day shapes `isoformat` emits,
each component exactly two digits, the fraction exactly three or six.
Returns hour, minute, second, microsecond and the rest of the input,
without range checks (the `datetime` constructor performs those). -/
def parseHmsF : List Char → Option ((Nat × Nat × Nat × Nat) × List Char)
  | h1 :: h2 :: rest =>
      (digit2 h1 h2).bind (fun h =>
        match rest with
        | ':' :: m1 :: m2 :: rest2 =>
            (digit2 m1 m2).bind (fun mi =>
              match rest2 with
              | ':' :: s1 :: s2 :: rest3 =>
                  (digit2 s1 s2).bind (fun sec =>
                    match rest3 with
                    | '.' :: fs =>
                        let p := digitsCnt fs 0 0
                        if p.2.1 = 3 then some ((h, mi, sec, p.1 * 1000), p.2.2)
                        else if p.2.1 = 6 then some ((h, mi, sec, p.1), p.2.2)
                        else none
                    | _ => some ((h, mi, sec, 0), rest3))
              | _ => some ((h, mi, 0, 0), rest2))
        | _ => some ((h, 0, 0, 0), rest))
  | _ => none

/-- The offset designator after its sign: `HH:MM[:SS[.ffffff]]`, valid when
its magnitude stays under 24 hours, returned in signed microseconds. -/
def parseTzOffset (sign : Int) : List Char → Option Int
  | h1 :: h2 :: ':' :: m1 :: m2 :: rest =>
      (digit2 h1 h2).bind (fun h =>
        (digit2 m1 m2).bind (fun mi =>
          (match rest with
           | [] => some ((h * 3600 + mi * 60) * 1000000)
           | ':' :: s1 :: s2 :: rest2 =>
               (digit2 s1 s2).bind (fun sec =>
                 match rest2 with
                 | [] => some ((h * 3600 + mi * 60 + sec) * 1000000)
                 | ['.', f1, f2, f3, f4, f5, f6] =>
                     (match digitsCnt [f1, f2, f3, f4, f5, f6] 0 0 with
                      | (fv, 6, []) =>
                          some ((h * 3600 + mi * 60 + sec) * 1000000 + fv)
                      | _ => none)
                 | _ => none)
           | _ => none).bind (fun o =>
            if o < 86400000000 then some (sign * (o : Int)) else none)))
  | _ => none

/-- The time-of-day with its optional offset designator, consuming the whole
input. -/
def parseTimeTz (cs : List Char) :
    Option ((Nat × Nat × Nat × Nat) × Option Int) :=
  (parseHmsF cs).bind (fun p =>
    match p.2 with
    | [] => some (p.1, none)
    | '+' :: tzcs => (parseTzOffset 1 tzcs).map (fun o => (p.1, some o))
    | '-' :: tzcs => (parseTzOffset (-1) tzcs).map (fun o => (p.1, some o))
    | _ => none)

/-- `datetime.fromisoformat` on a literal string: the date, an arbitrary
one-character separator, the optional time and offset, with the constructor
range checks; the result is the denoted instant's name. -/
def isoParse (str : String) : Option Nat :=
  match str.toList with
  | y1 :: y2 :: y3 :: y4 :: '-' :: mo1 :: mo2 :: '-' :: d1 :: d2 :: rest =>
      (digit4 y1 y2 y3 y4).bind (fun y =>
        (digit2 mo1 mo2).bind (fun mo =>
          (digit2 d1 d2).bind (fun d =>
            if 1 ≤ y ∧ 1 ≤ mo ∧ mo ≤ 12 ∧ 1 ≤ d ∧ d ≤ daysInMonth y mo then
              match rest with
              | [] => some (isoEncode y mo d 0 0 0 0 none)
              | _ :: timeChars =>
                  (parseTimeTz timeChars).bind (fun q =>
                    if q.1.1 ≤ 23 ∧ q.1.2.1 ≤ 59 ∧ q.1.2.2.1 ≤ 59 then
                      some (isoEncode y mo d q.1.1 q.1.2.1 q.1.2.2.1 q.1.2.2.2
                        q.2)
                    else none)
            else none)))
  | _ => none

/-- `datetime.fromisoformat` applied to an embedded string.  It recovers the
instant from an `isoformat` output by the library contract and parses a
literal string with `isoParse`.  The other symbolic flavours never have the
shape `YYYY-MM-DD…`: `str(int)` has no interior hyphens and a `json.dumps`
output opens with a quote, bracket, digit, sign or keyword, so
`fromisoformat` raises `ValueError` on them. -/
def fromIso : PyVal → Option Nat
  | .vIso t => some t
  | .vStr s => isoParse s
  | _ => none

/-! ### Field handlers (`field_handlers.py`)

Each handler is one of the concrete `FieldHandler` subclasses; `serialize` and
`deserialize` return `none` exactly when the Python method raises. -/

inductive Handler where
  | hString
  | hInt
  | hList
  | hDateTime
  | hDict
  deriving DecidableEq, Repr

namespace Handler

/-- `FieldHandler.serialize` of each subclass.  `StringFieldHandler` and
`IntFieldHandler` return `str(value)`; `ListFieldHandler` and
`DictFieldHandler` return `json.dumps(value)`, raising `TypeError` on values
that are not JSON serializable; `DateTimeFieldHandler` returns `isoformat`
for a `datetime` and `str(value)` otherwise. -/
def serialize : Handler → PyVal → Option PyVal
  | hString, v => some (pyToStr v)
  | hInt, v => some (pyToStr v)
  | hList, v => (toJson v).map .vJson
  | hDateTime, .vDT t => some (.vIso t)
  | hDateTime, v => some (pyToStr v)
  | hDict, v => (toJson v).map .vJson

/-- `FieldHandler.deserialize` of each subclass; `now` is the current time
used by the `DateTimeFieldHandler` fallback.  `IntFieldHandler` passes an
`int` (including a `bool`) through and otherwise calls `int(value)`, which
raises on unparsable input; the other handlers never raise. -/
def deserialize : Handler → PyVal → Nat → Option PyVal
  | hString, v, _ => some (pyToStr v)
  | hInt, .vInt n, _ => some (.vInt n)
  | hInt, .vBool b, _ => some (.vBool b)
  | hInt, v, _ => (intOfPy v).map .vInt
  | hList, .vList l, _ => some (.vList l)
  | hList, v, _ =>
      if v.isStr then
        some ((jsonLoadsOfStr v).getD (.vList []))
      else
        some (.vList [])
  | hDateTime, .vDT t, _ => some (.vDT t)
  | hDateTime, v, now =>
      if v.isStr then
        some (match fromIso v with
              | some t => .vDT t
              | none => .vDT now)
      else
        some v
  | hDict, .vDict d, _ => some (.vDict d)
  | hDict, v, _ =>
      if v.isStr then
        some ((jsonLoadsOfStr v).getD (.vDict []))
      else
        some (.vDict [])

end Handler

/-! ### The field registry (`memory_note_field_registry`) -/

/-- The handler registered for each `MemoryNote` field, exactly as in the
registration block at the bottom of `field_handlers.py`. -/
def getHandler : String → Option Handler :=
  alookup
    [("content", .hString), ("id", .hString), ("keywords", .hList),
     ("retrieval_count", .hInt), ("timestamp", .hDateTime),
     ("last_accessed", .hDateTime), ("context", .hString),
     ("category", .hString), ("tags", .hList),
     ("memory_update_history", .hList), ("memory_update_context", .hList),
     ("extras", .hDict)]

/-- `FieldRegistry.serialize`: an unregistered field is stringified. -/
def registrySerialize (field : String) (v : PyVal) : Option PyVal :=
  match getHandler field with
  | none => some (pyToStr v)
  | some h => h.serialize v

/-- `FieldRegistry.deserialize`: an unregistered field passes through. -/
def registryDeserialize (field : String) (v : PyVal) (now : Nat) : Option PyVal :=
  match getHandler field with
  | none => some v
  | some h => h.deserialize v now

/-- `FieldRegistry.serialize_all`: `none` when some field raises. -/
def serializeAll (data : List (String × PyVal)) : Option (List (String × PyVal)) :=
  amapM (fun p => (registrySerialize p.1 p.2).map (fun v => (p.1, v))) data

/-- `FieldRegistry.deserialize_all`: `none` when some field raises. -/
def deserializeAll (data : List (String × PyVal)) (now : Nat) :
    Option (List (String × PyVal)) :=
  amapM (fun p => (registryDeserialize p.1 p.2 now).map (fun v => (p.1, v))) data

/-! ### `MemoryNote` (`memory_note.py`) -/

/-- `MemoryNote.model_fields.keys()` in declaration order. -/
def knownFieldNames : List String :=
  ["content", "id", "keywords", "retrieval_count", "timestamp",
   "last_accessed", "context", "category", "tags",
   "memory_update_history", "memory_update_context", "extras"]

/-- The pydantic record behind `MemoryNote`.  Timestamps are abstract
instants. -/
structure MemoryNote where
  content : String
  id : String
  keywords : List String
  retrieval_count : Int
  timestamp : Nat
  last_accessed : Nat
  context : String
  category : String
  tags : List String
  memory_update_history : List String
  memory_update_context : List String
  extras : List (String × String)
  deriving DecidableEq, Repr

/-- pydantic validation of a `str` field (no coercion from other types). -/
def pyStrField : PyVal → Option String
  | .vStr s => some s
  | _ => none

/-- pydantic validation of a `List[str]` field. -/
def pyStrListField : PyVal → Option (List String)
  | .vList l => amapM pyStrField l
  | _ => none

/-- pydantic validation of an `int` field; lax mode also accepts a numeric
string. -/
def pyIntField : PyVal → Option Int
  | .vInt n => some n
  | .vStr s => strToIntPy s
  | .vDec n => some n
  | _ => none

/-- pydantic validation of a `datetime` field; lax mode also accepts an
ISO-8601 string, modelled for the `isoformat` flavour (no verified property
supplies a literal timestamp string here). -/
def pyDTField : PyVal → Option Nat
  | .vDT t => some t
  | .vIso t => some t
  | _ => none

/-- An optional field with a default: absent means the default factory
runs, present means the value must validate. -/
def optField {α : Type} (data : List (String × PyVal)) (k : String)
    (conv : PyVal → Option α) (dflt : α) : Option α :=
  match alookup data k with
  | none => some dflt
  | some v => conv v

/-- `data.pop('extras', {}).copy()`: absent means an empty dictionary, a
non-dictionary value raises on `.copy()` or at validation. -/
def extrasOfData : Option PyVal → Option (List (String × PyVal))
  | none => some []
  | some (.vDict d) => some d
  | some _ => none

/-- pydantic validation of the `extras` mapping: every value must be a
string. -/
def extrasValidate (l : List (String × PyVal)) : Option (List (String × String)) :=
  amapM (fun p => (pyStrField p.2).map ((p.1, ·))) l

/-- `MemoryNote.__init__`: pops the two history fields, pops a supplied
`extras` dictionary, siphons every unknown key into `extras` through `str`,
validates the known fields (pydantic raises, modelled as `none`), and then
appends the creation entries to the history fields.  `uuid` and `now` are
the values the default factories would produce. -/
def mkNote (data : List (String × PyVal)) (uuid : String) (now : Nat) :
    Option MemoryNote := do
  let data := aremove data "memory_update_history"
  let data := aremove data "memory_update_context"
  let extras0 ← extrasOfData (alookup data "extras")
  let data := aremove data "extras"
  let knownFields := knownFieldNames.filter (· ≠ "extras")
  let knownData := data.filter (fun p => knownFields.contains p.1)
  let unknownData := data.filter (fun p => !knownFields.contains p.1)
  let extrasPy ← afoldlM
      (fun acc p => (pyToStrPlain p.2).map (fun s => aset acc p.1 (.vStr s)))
      extras0 unknownData
  let extras ← extrasValidate extrasPy
  let content ← (alookup knownData "content").bind pyStrField
  let id ← optField knownData "id" pyStrField uuid
  let keywords ← optField knownData "keywords" pyStrListField []
  let retrievalCount ← optField knownData "retrieval_count" pyIntField 0
  let timestamp ← optField knownData "timestamp" pyDTField now
  let lastAccessed ← optField knownData "last_accessed" pyDTField now
  let context ← optField knownData "context" pyStrField "General"
  let category ← optField knownData "category" pyStrField "Uncategorized"
  let tags ← optField knownData "tags" pyStrListField []
  some { content := content, id := id, keywords := keywords,
         retrieval_count := retrievalCount, timestamp := timestamp,
         last_accessed := lastAccessed, context := context,
         category := category, tags := tags,
         memory_update_history := [content],
         memory_update_context := ["Initial memory creation."],
         extras := extras }

/-- `MemoryNote.model_dump()`: the field map in declaration order. -/
def modelDump (m : MemoryNote) : List (String × PyVal) :=
  [("content", .vStr m.content), ("id", .vStr m.id),
   ("keywords", .vList (m.keywords.map .vStr)),
   ("retrieval_count", .vInt m.retrieval_count),
   ("timestamp", .vDT m.timestamp), ("last_accessed", .vDT m.last_accessed),
   ("context", .vStr m.context), ("category", .vStr m.category),
   ("tags", .vList (m.tags.map .vStr)),
   ("memory_update_history", .vList (m.memory_update_history.map .vStr)),
   ("memory_update_context", .vList (m.memory_update_context.map .vStr)),
   ("extras", .vDict (m.extras.map (fun p => (p.1, PyVal.vStr p.2))))]

/-- The per-field assignment actions behind `setattr(note, k, v)`, one per
declared field.  pydantic does not validate assignments, so Python would
store even an ill-typed value; the embedding keeps the record typed and
leaves an ill-typed assignment out, which no verified property exercises. -/
def noteSetters : List (String × (MemoryNote → PyVal → MemoryNote)) :=
  [("content", fun m v => match v with | .vStr s => { m with content := s } | _ => m),
   ("id", fun m v => match v with | .vStr s => { m with id := s } | _ => m),
   ("keywords", fun m v =>
      match pyStrListField v with
      | some ks => { m with keywords := ks }
      | none => m),
   ("retrieval_count", fun m v =>
      match v with | .vInt n => { m with retrieval_count := n } | _ => m),
   ("timestamp", fun m v =>
      match v with | .vDT t => { m with timestamp := t } | _ => m),
   ("last_accessed", fun m v =>
      match v with | .vDT t => { m with last_accessed := t } | _ => m),
   ("context", fun m v => match v with | .vStr s => { m with context := s } | _ => m),
   ("category", fun m v => match v with | .vStr s => { m with category := s } | _ => m),
   ("tags", fun m v =>
      match pyStrListField v with
      | some ts => { m with tags := ts }
      | none => m),
   ("memory_update_history", fun m v =>
      match pyStrListField v with
      | some hs => { m with memory_update_history := hs }
      | none => m),
   ("memory_update_context", fun m v =>
      match pyStrListField v with
      | some cs => { m with memory_update_context := cs }
      | none => m),
   ("extras", fun m v =>
      match v with
      | .vDict d =>
          (match amapM (fun p => (pyStrField p.2).map ((p.1, ·))) d with
           | some es => { m with extras := es }
           | none => m)
      | _ => m)]

/-- `setattr(note, k, v)` guarded by `hasattr(note, k)`: dispatch on the
declared field names, an unknown name leaving the record unchanged. -/
def setattrNote (m : MemoryNote) (k : String) (v : PyVal) : MemoryNote :=
  match alookup noteSetters k with
  | some f => f m v
  | none => m

/-- `MemoryNote.update`: appends the reason (default when not given) and the
new content to the history fields, refreshes `last_accessed` to `now`, pops
`last_accessed` from the extra overrides, and applies each remaining
override to an existing attribute. -/
def MemoryNote.update (m : MemoryNote) (content : String)
    (updateContext : Option String) (kwargs : List (String × PyVal))
    (now : Nat) : MemoryNote :=
  let m1 := { m with memory_update_context :=
                m.memory_update_context ++ [updateContext.getD "Memory update."] }
  let m2 := { m1 with
              content := content,
              memory_update_history := m1.memory_update_history ++ [content] }
  let m3 := { m2 with last_accessed := now }
  (aremove kwargs "last_accessed").foldl (fun acc p => setattrNote acc p.1 p.2) m3

/-- `MemoryNote.serialize_for_storage()`. -/
def serializeForStorage (m : MemoryNote) : Option (List (String × PyVal)) :=
  serializeAll (modelDump m)

/-- `MemoryNote.deserialize_from_storage(data)`; `now` feeds the timestamp
fallback in the registry and `uuid`, `now2` feed the constructor defaults. -/
def deserializeFromStorage (data : List (String × PyVal)) (now : Nat)
    (uuid : String) (now2 : Nat) : Option MemoryNote := do
  let d ← deserializeAll data now
  mkNote d uuid now2

/-! ### `AgenticMemorySystem` (`memory_system.py`)

The Vector Store is external: similarity hits, the bulk listing used at
startup, and the success of a backend push enter the model as parameters. -/

/-- The in-memory record map `self.memories`, in insertion order. -/
structure SysState where
  memories : List (String × MemoryNote)
  deriving DecidableEq, Repr

/-- `AgenticMemorySystem._filter_by_keywords`: ids of records whose extras
match every criterion and carry no key outside the criteria. -/
def filterByKeywords (st : SysState) (criteria : List (String × PyVal)) :
    List String :=
  st.memories.filterMap (fun p =>
    let note := p.2
    if criteria.all (fun c =>
         pyEqB c.2 (match alookup note.extras c.1 with
                    | some e => .vStr e
                    | none => .vNone))
       && note.extras.all (fun e => criteria.any (fun c => c.1 == e.1))
    then some p.1 else none)

/-- One similarity hit as `retriever.search` reports it (index 0 of the
batch-shaped arrays); the distance is embedded as a rational. -/
structure SimHit where
  id : String
  document : String
  distance : ℚ
  deriving DecidableEq, Repr

/-- `r["id"]` of a search result dictionary. -/
def dumpId (d : List (String × PyVal)) : String :=
  match alookup d "id" with
  | some (.vStr s) => s
  | _ => ""

/-- The exact-filter phase of `search`: skipped entirely when no criteria
remain, otherwise each matching id rendered as a full record snapshot. -/
def searchPhase1 (st : SysState) (criteria : List (String × PyVal)) :
    List (List (String × PyVal)) :=
  if criteria.isEmpty then []
  else (filterByKeywords st criteria).filterMap
         (fun mid => (alookup st.memories mid).map modelDump)

/-- The similarity phase of `search`: keeps each hit whose id is not among
the exact-phase result ids (`existing_ids`) and whose distance is within the
threshold, rendered as the full record when locally known and as a minimal
id/content dictionary otherwise. -/
def searchPhase2 (st : SysState) (threshold : ℚ)
    (criteria : List (String × PyVal)) (hits : List SimHit) :
    List (List (String × PyVal)) :=
  hits.filterMap (fun h =>
    if !((searchPhase1 st criteria).map dumpId).contains h.id
        && h.distance ≤ threshold then
      some (match alookup st.memories h.id with
            | some note => modelDump note
            | none => [("id", PyVal.vStr h.id), ("content", PyVal.vStr h.document)])
    else none)

/-- The body of `AgenticMemorySystem.search` after the non-string criteria
have been dropped: exact-filter matches first, then the surviving similarity
hits, truncated to `k`. -/
def searchCore (st : SysState) (k : Nat) (threshold : ℚ)
    (criteria : List (String × PyVal)) (hits : List SimHit) :
    List (List (String × PyVal)) :=
  (searchPhase1 st criteria ++ searchPhase2 st threshold criteria hits).take k

/-- `AgenticMemorySystem.search`: drops every criterion whose value is not a
string, then runs the two-phase body. -/
def search (st : SysState) (k : Nat) (threshold : ℚ)
    (criteria : List (String × PyVal)) (hits : List SimHit) :
    List (List (String × PyVal)) :=
  searchCore st k threshold (criteria.filter (fun c => c.2.isStr)) hits

/-- `AgenticMemorySystem.update`: `false` on an unknown id; otherwise applies
the attribute overrides to the in-memory record and pushes to the Vector
Store, whose outcome is the parameter `pushOk`; a failed push reports `false`
with the record already mutated. -/
def sysUpdate (st : SysState) (mid : String) (kwargs : List (String × PyVal))
    (pushOk : Bool) : SysState × Bool :=
  match alookup st.memories mid with
  | none => (st, false)
  | some note =>
      let note' := kwargs.foldl (fun acc p => setattrNote acc p.1 p.2) note
      (⟨aset st.memories mid note'⟩, pushOk)

/-- `AgenticMemorySystem.add_note`: constructs the record and inserts it under
its id.  The subsequent Vector Store push is external and outside the
verified properties. -/
def addNote (st : SysState) (content : String) (kwargs : List (String × PyVal))
    (uuid : String) (now : Nat) : Option (SysState × String) :=
  (mkNote (("content", PyVal.vStr content) :: kwargs) uuid now).map
    (fun note => (⟨aset st.memories note.id note⟩, note.id))

/-- `AgenticMemorySystem.update_by_keywords`: `false` on empty criteria, a
fresh record when nothing matches, otherwise a content update of the first
match; reports `true` in both non-empty cases. -/
def updateByKeywords (st : SysState) (content : String)
    (kwargs : List (String × PyVal)) (uuid : String) (now : Nat)
    (pushOk : Bool) : Option (SysState × Bool) :=
  if kwargs.isEmpty then some (st, false)
  else
    match filterByKeywords st kwargs with
    | [] => (addNote st content kwargs uuid now).map (fun p => (p.1, true))
    | mid :: _ =>
        some ((sysUpdate st mid [("content", PyVal.vStr content)] pushOk).1, true)

/-- `AgenticMemorySystem._deserialize_metadata`: re-decodes `keywords` and
`tags` when they are still JSON strings (keeping them on a decode failure)
and hands the map to the `MemoryNote` constructor. -/
def deserializeMetadata (metadata : List (String × PyVal)) (uuid : String)
    (now : Nat) : Option MemoryNote :=
  let noteData := metadata.map (fun p =>
    if (p.1 == "keywords" || p.1 == "tags") && p.2.isStr then
      (p.1, match jsonLoadsOfStr p.2 with
            | some r => r
            | none => p.2)
    else p)
  mkNote noteData uuid now

/-- The bulk listing `retriever.collection.get(include=[...])` returns at
startup. -/
structure StoreData where
  ids : List String
  documents : List String
  metadatas : List (List (String × PyVal))

/-- The attribute surface of the retriever as `_load_existing_memories` uses
it.  Python resolves `self.retriever._convert_metadata_types` dynamically, so
the attribute is an optional slot: `ChromaRetriever` in `retrievers.py`
defines `_deserialize_metadatas` but no `_convert_metadata_types`, so for the
retriever of the source the slot is empty and the lookup raises
`AttributeError`.  The singleton batch wrapping of the metadata list around
the call is elided. -/
structure RetrieverAttrs where
  convertMetadataTypes :
    Option (List (List (String × PyVal)) → List (List (String × PyVal)))

/-- The `ChromaRetriever` of the source: no `_convert_metadata_types`. -/
def chromaRetriever : RetrieverAttrs := ⟨none⟩

/-- The reconstruction loop of `_load_existing_memories`: synthesizes
`content` and `id` into each metadata map when absent and deserializes it.  A
pydantic error escapes the loop into the warn-and-continue handler, keeping
the entries loaded so far. -/
def loadLoop (st : SysState) (uuid : String) (now : Nat) :
    List (String × String × List (String × PyVal)) → SysState
  | [] => st
  | (docId, content, metadata) :: rest =>
      let metadata := if ahas metadata "content" then metadata
                      else aset metadata "content" (.vStr content)
      let metadata := if ahas metadata "id" then metadata
                      else aset metadata "id" (.vStr docId)
      match deserializeMetadata metadata uuid now with
      | some note => loadLoop ⟨aset st.memories docId note⟩ uuid now rest
      | none => st

/-- `AgenticMemorySystem._load_existing_memories`: returns unchanged on an
empty listing; otherwise converts the metadata through the retriever
attribute `_convert_metadata_types` — whose absence raises an
`AttributeError` that the surrounding handler silently swallows — and only
then reconstructs the records. -/
def loadExistingMemories (st : SysState) (r : RetrieverAttrs)
    (data : StoreData) (uuid : String) (now : Nat) : SysState :=
  if data.ids.isEmpty then st
  else if data.metadatas.isEmpty then st
  else
    match r.convertMetadataTypes with
    | none => st
    | some f =>
        let metas := f data.metadatas
        loadLoop st uuid now
          ((data.ids.zip (data.documents.zip metas)).map
            (fun p => (p.1, p.2.1, p.2.2)))

/-! ## Helper lemmas -/

@[simp]
theorem alookup_nil {α : Type} (k : String) :
    alookup ([] : List (String × α)) k = none := rfl

theorem alookup_cons {α : Type} (k' k : String) (v : α) (t : List (String × α)) :
    alookup ((k', v) :: t) k = if k' = k then some v else alookup t k := rfl

theorem alookup_mem {α : Type} {l : List (String × α)} {k : String} {v : α}
    (h : alookup l k = some v) : (k, v) ∈ l := by
  induction l with
  | nil => simp at h
  | cons p t ih =>
      obtain ⟨k', v'⟩ := p
      rw [alookup_cons] at h
      by_cases hk : k' = k
      · simp [hk] at h
        simp [hk, h]
      · simp [hk] at h
        exact List.mem_cons_of_mem _ (ih h)

theorem alookup_isSome_iff {α : Type} {l : List (String × α)} {k : String} :
    (alookup l k).isSome ↔ k ∈ l.map Prod.fst := by
  induction l with
  | nil => simp
  | cons p t ih =>
      obtain ⟨k', v'⟩ := p
      rw [alookup_cons]
      by_cases hk : k' = k
      · simp [hk]
      · have hk2 : ¬k = k' := fun hh => hk hh.symm
        simp [hk, hk2, ih]

theorem alookup_aset_self {α : Type} (l : List (String × α)) (k : String) (v : α) :
    alookup (aset l k v) k = some v := by
  induction l with
  | nil => simp [aset, alookup_cons]
  | cons p t ih =>
      obtain ⟨k', v'⟩ := p
      by_cases hk : k' = k <;> simp [aset, hk, alookup_cons, ih]

theorem alookup_aset_ne {α : Type} (l : List (String × α)) (k k' : String) (v : α)
    (h : k' ≠ k) : alookup (aset l k v) k' = alookup l k' := by
  have h2 : ¬k = k' := fun hh => h hh.symm
  induction l with
  | nil => simp [aset, alookup_cons, h2]
  | cons p t ih =>
      obtain ⟨k0, v0⟩ := p
      by_cases hk : k0 = k
      · simp [aset, hk, alookup_cons, h2]
      · simp [aset, hk, alookup_cons, ih]

theorem aset_fresh {α : Type} {l : List (String × α)} {k : String}
    (h : alookup l k = none) (v : α) : aset l k v = l ++ [(k, v)] := by
  induction l with
  | nil => simp [aset]
  | cons p t ih =>
      obtain ⟨k', v'⟩ := p
      rw [alookup_cons] at h
      by_cases hk : k' = k
      · simp [hk] at h
      · simp [hk] at h
        simp [aset, hk, ih h]

theorem length_aset_of_mem {α : Type} {l : List (String × α)} {k : String}
    (h : (alookup l k).isSome) (v : α) : (aset l k v).length = l.length := by
  induction l with
  | nil => simp [alookup_nil] at h
  | cons p t ih =>
      obtain ⟨k', v'⟩ := p
      rw [alookup_cons] at h
      by_cases hk : k' = k
      · simp [aset, hk]
      · simp [hk] at h
        simp [aset, hk, ih h]

theorem aremove_of_forall_ne {α : Type} {l : List (String × α)} {k : String}
    (h : ∀ p ∈ l, p.1 ≠ k) : aremove l k = l := by
  induction l with
  | nil => rfl
  | cons p t ih =>
      obtain ⟨k', v'⟩ := p
      have hk : k' ≠ k := h (k', v') (List.mem_cons_self _ _)
      simp [aremove, hk]
      exact ih (fun q hq => h q (List.mem_cons_of_mem _ hq))

theorem mem_of_mem_aremove {α : Type} {l : List (String × α)} {k : String}
    {p : String × α} (h : p ∈ aremove l k) : p ∈ l := by
  induction l with
  | nil => simp [aremove] at h
  | cons q t ih =>
      obtain ⟨k', v'⟩ := q
      by_cases hk : k' = k
      · simp [aremove, hk] at h
        exact List.mem_cons_of_mem _ (ih h)
      · simp [aremove, hk] at h
        rcases h with h | h
        · simp [h]
        · exact List.mem_cons_of_mem _ (ih h)

theorem alookup_of_forall_ne {α : Type} {l : List (String × α)} {k : String}
    (h : ∀ p ∈ l, p.1 ≠ k) : alookup l k = none := by
  induction l with
  | nil => rfl
  | cons p t ih =>
      obtain ⟨k', v'⟩ := p
      have hk : k' ≠ k := h (k', v') (List.mem_cons_self _ _)
      simp [alookup_cons, hk]
      exact ih (fun q hq => h q (List.mem_cons_of_mem _ hq))

theorem toJsonList_map_vStr (l : List String) :
    toJsonList (l.map PyVal.vStr) = some (l.map JVal.jStr) := by
  induction l with
  | nil => rfl
  | cons s t ih => simp [toJsonList, toJson, ih]

theorem jToPyList_map_jStr (l : List String) :
    jToPyList (l.map JVal.jStr) = l.map PyVal.vStr := by
  induction l with
  | nil => rfl
  | cons s t ih => simp [jToPyList, jToPy, ih]

theorem toJsonDict_map_vStr (d : List (String × String)) :
    toJsonDict (d.map (fun p => (p.1, PyVal.vStr p.2)))
      = some (d.map (fun p => (p.1, JVal.jStr p.2))) := by
  induction d with
  | nil => rfl
  | cons p t ih => simp [toJsonDict, toJson, ih]

theorem jToPyDict_map_jStr (d : List (String × String)) :
    jToPyDict (d.map (fun p => (p.1, JVal.jStr p.2)))
      = d.map (fun p => (p.1, PyVal.vStr p.2)) := by
  induction d with
  | nil => rfl
  | cons p t ih => simp [jToPyDict, jToPy, ih]

theorem amapM_pyStrField_map_vStr (l : List String) :
    amapM pyStrField (l.map PyVal.vStr) = some l := by
  induction l with
  | nil => rfl
  | cons s t ih => simp [amapM, pyStrField, ih]

theorem extrasValidate_pairs (d : List (String × String)) :
    extrasValidate (d.map (fun p => (p.1, PyVal.vStr p.2))) = some d := by
  induction d with
  | nil => rfl
  | cons p t ih =>
      simp only [extrasValidate, List.map_cons, amapM] at ih ⊢
      rw [ih]
      rfl

theorem pyStrField_vStr (s : String) : pyStrField (.vStr s) = some s := rfl

theorem pyToStrPlain_vStr (s : String) : pyToStrPlain (.vStr s) = some s := rfl

theorem pyStrListField_vList (l : List PyVal) :
    pyStrListField (.vList l) = amapM pyStrField l := rfl

theorem pyIntField_vInt (n : Int) : pyIntField (.vInt n) = some n := rfl

theorem pyDTField_vDT (t : Nat) : pyDTField (.vDT t) = some t := rfl

theorem intOfPy_vDec (n : Int) : intOfPy (.vDec n) = some n := rfl

/-! ## C1 -/

/-- A Vector Store listing holding one document with metadata, as
`collection.get` would return it after the document of the repository test
fixtures was stored. -/
def c1Store : StoreData :=
  ⟨["doc-1"], ["hello world"],
   [[("content", PyVal.vStr "hello world"),
     ("category", PyVal.vStr "Tech")]]⟩

/-- C1: constructing the Memory System over a Vector Store holding one
document leaves the record map empty instead of holding one Memory Record
per stored document: the load path asks the retriever for the missing
attribute `_convert_metadata_types` and silently swallows the resulting
`AttributeError`, so no document is ever deserialized. -/
theorem c1_load_existing_loads_nothing :
    (loadExistingMemories ⟨[]⟩ chromaRetriever c1Store "uuid-1" 0).memories.length
        = 0
      ∧ c1Store.ids.length = 1 := by
  exact ⟨rfl, rfl⟩

/-! ## C3 -/

/-- The values on which `IntFieldHandler.deserialize` returns instead of
raising: an `int` (including `bool`) passes through, anything else must be
accepted by `int(value)`. -/
def intDeserOk : PyVal → Bool
  | .vInt _ => true
  | .vBool _ => true
  | v => (intOfPy v).isSome

/-- The values `json.dumps` can encode. -/
def jsonableB (v : PyVal) : Bool := (toJson v).isSome

/-- C3 counterexample: `deserialize_all` propagates the `ValueError` from
`int("abc")` on an attribute map whose `retrieval_count` holds an unparsable
string, contradicting the claim that the pair never raises on malformed
values of the registered field type. -/
theorem c3_deserialize_all_raises_on_bad_int :
    deserializeAll [("retrieval_count", PyVal.vStr "abc")] 0 = none := by
  rfl

theorem handler_deserialize_isSome_of_ne_hInt (h : Handler) (v : PyVal)
    (now : Nat) (hne : h ≠ Handler.hInt) : (h.deserialize v now).isSome := by
  cases h with
  | hInt => exact absurd rfl hne
  | hString => simp [Handler.deserialize]
  | hList => cases v <;> simp [Handler.deserialize, PyVal.isStr]
  | hDateTime => cases v <;> simp [Handler.deserialize, PyVal.isStr]
  | hDict => cases v <;> simp [Handler.deserialize, PyVal.isStr]

theorem handler_deserialize_hInt_isSome (v : PyVal) (now : Nat)
    (h : intDeserOk v = true) :
    (Handler.deserialize Handler.hInt v now).isSome := by
  cases v <;> simp_all [Handler.deserialize, intDeserOk]

theorem handler_serialize_isSome (h : Handler) (v : PyVal)
    (hj : h = Handler.hList ∨ h = Handler.hDict → jsonableB v = true) :
    (h.serialize v).isSome := by
  cases h with
  | hString => simp [Handler.serialize]
  | hInt => simp [Handler.serialize]
  | hList =>
      have := hj (Or.inl rfl)
      simpa [Handler.serialize, jsonableB, Option.isSome_map] using this
  | hDateTime => cases v <;> simp [Handler.serialize]
  | hDict =>
      have := hj (Or.inr rfl)
      simpa [Handler.serialize, jsonableB, Option.isSome_map] using this

theorem deserializeAll_total (data : List (String × PyVal)) (now : Nat)
    (h : ∀ p ∈ data, getHandler p.1 = some Handler.hInt → intDeserOk p.2 = true) :
    (deserializeAll data now).isSome := by
  induction data with
  | nil => rfl
  | cons p t ih =>
      have hp : (registryDeserialize p.1 p.2 now).isSome := by
        unfold registryDeserialize
        cases hh : getHandler p.1 with
        | none => simp
        | some hd =>
            by_cases hdi : hd = Handler.hInt
            · subst hdi
              exact handler_deserialize_hInt_isSome p.2 now
                (h p (List.mem_cons_self _ _) hh)
            · exact handler_deserialize_isSome_of_ne_hInt hd p.2 now hdi
      have ht : (deserializeAll t now).isSome :=
        ih (fun q hq => h q (List.mem_cons_of_mem _ hq))
      obtain ⟨y, hy⟩ := Option.isSome_iff_exists.mp hp
      obtain ⟨ys, hys⟩ := Option.isSome_iff_exists.mp ht
      simp only [deserializeAll] at hys ⊢
      simp [amapM, hy, hys]

theorem serializeAll_total (data : List (String × PyVal))
    (h : ∀ p ∈ data,
      (getHandler p.1 = some Handler.hList ∨ getHandler p.1 = some Handler.hDict)
        → jsonableB p.2 = true) :
    (serializeAll data).isSome := by
  induction data with
  | nil => rfl
  | cons p t ih =>
      have hp : (registrySerialize p.1 p.2).isSome := by
        unfold registrySerialize
        cases hh : getHandler p.1 with
        | none => simp
        | some hd =>
            refine handler_serialize_isSome hd p.2 (fun hc => ?_)
            refine h p (List.mem_cons_self _ _) ?_
            rcases hc with hc | hc
            · exact Or.inl (by rw [hh, hc])
            · exact Or.inr (by rw [hh, hc])
      have ht : (serializeAll t).isSome :=
        ih (fun q hq => h q (List.mem_cons_of_mem _ hq))
      obtain ⟨y, hy⟩ := Option.isSome_iff_exists.mp hp
      obtain ⟨ys, hys⟩ := Option.isSome_iff_exists.mp ht
      simp only [serializeAll] at hys ⊢
      simp [amapM, hy, hys]

/-- C3 (amended): `serialize_all` and `deserialize_all` never raise and apply
the per-field policy, except that `IntFieldHandler.deserialize` propagates
the error from `int(value)` on an unparsable value and the list/dictionary
handlers propagate the `TypeError` from `json.dumps` on a value it cannot
encode.  Under those provisos: both traversals return a result; a list- or
dictionary-registered field holding a string degrades to an empty list or
mapping exactly when the string is not valid JSON and otherwise yields the
parsed value; a timestamp-registered field holding a string degrades to the
current time exactly when the ISO-8601 parse fails and otherwise yields the
parsed time. -/
theorem c3_codec_registry_totality_amended :
    (∀ (data : List (String × PyVal)) (now : Nat),
        (∀ p ∈ data, getHandler p.1 = some Handler.hInt → intDeserOk p.2 = true)
          → (deserializeAll data now).isSome)
      ∧ (∀ data : List (String × PyVal),
          (∀ p ∈ data,
            (getHandler p.1 = some Handler.hList
              ∨ getHandler p.1 = some Handler.hDict)
              → jsonableB p.2 = true)
            → (serializeAll data).isSome)
      ∧ (∀ (s : String) (now : Nat),
          (jsonParse s = none →
            Handler.deserialize Handler.hList (PyVal.vStr s) now
                = some (PyVal.vList [])
              ∧ Handler.deserialize Handler.hDict (PyVal.vStr s) now
                = some (PyVal.vDict []))
            ∧ ∀ j, jsonParse s = some j →
                Handler.deserialize Handler.hList (PyVal.vStr s) now
                    = some (jToPy j)
                  ∧ Handler.deserialize Handler.hDict (PyVal.vStr s) now
                    = some (jToPy j))
      ∧ (∀ (s : String) (now : Nat),
          (isoParse s = none →
            Handler.deserialize Handler.hDateTime (PyVal.vStr s) now
              = some (PyVal.vDT now))
            ∧ ∀ t, isoParse s = some t →
                Handler.deserialize Handler.hDateTime (PyVal.vStr s) now
                  = some (PyVal.vDT t)) := by
  refine ⟨deserializeAll_total, serializeAll_total, fun s now => ⟨?_, ?_⟩,
    fun s now => ⟨?_, ?_⟩⟩
  · intro hs
    constructor <;>
      simp [Handler.deserialize, PyVal.isStr, jsonLoadsOfStr, hs]
  · intro j hs
    constructor <;>
      simp [Handler.deserialize, PyVal.isStr, jsonLoadsOfStr, hs]
  · intro hs
    simp [Handler.deserialize, PyVal.isStr, fromIso, hs]
  · intro t hs
    simp [Handler.deserialize, PyVal.isStr, fromIso, hs]

/-- Witness for the amended C3 theorem at concrete attribute maps: a parsable
integer string, a malformed and a well-formed JSON string, an unparsable and
a well-formed timestamp string. -/
theorem c3_codec_registry_totality_witness :
    (deserializeAll
        [("retrieval_count", PyVal.vStr "17"),
         ("keywords", PyVal.vStr "\x7bbad"),
         ("timestamp", PyVal.vStr "garbage"),
         ("extras", PyVal.vStr "not json")] 5).isSome
      ∧ (serializeAll
          [("content", PyVal.vStr "c"),
           ("keywords", PyVal.vList [PyVal.vStr "a"]),
           ("extras", PyVal.vDict [("k", PyVal.vStr "v")])]).isSome
      ∧ Handler.deserialize Handler.hList (PyVal.vStr "\x7bbad") 5
          = some (PyVal.vList [])
      ∧ Handler.deserialize Handler.hList (PyVal.vStr "[\"a\", 1.5]") 5
          = some (PyVal.vList
              [PyVal.vStr "a", PyVal.vFloat (FloatVal.finite 15 (-1))])
      ∧ Handler.deserialize Handler.hDateTime (PyVal.vStr "garbage") 5
          = some (PyVal.vDT 5)
      ∧ Handler.deserialize Handler.hDateTime
            (PyVal.vStr "2024-03-05T06:07:08") 5
          = some (PyVal.vDT (isoEncode 2024 3 5 6 7 8 0 none)) :=
  ⟨c3_codec_registry_totality_amended.1 _ 5 (by decide),
   c3_codec_registry_totality_amended.2.1 _ (by decide),
   ((c3_codec_registry_totality_amended.2.2.1 "\x7bbad" 5).1 (by rfl)).1,
   ((c3_codec_registry_totality_amended.2.2.1 "[\"a\", 1.5]" 5).2
     (JVal.jList [JVal.jStr "a", JVal.jFloat (FloatVal.finite 15 (-1))])
     (by rfl)).1,
   (c3_codec_registry_totality_amended.2.2.2 "garbage" 5).1 (by rfl),
   (c3_codec_registry_totality_amended.2.2.2 "2024-03-05T06:07:08" 5).2
     (isoEncode 2024 3 5 6 7 8 0 none) (by rfl)⟩

/-! ## C6 -/

/-- C6: `update` on an unknown id reports `false` and leaves the record map
untouched; on a known id the in-memory record receives the attribute
overrides whether or not the Vector Store push succeeds (the local state is
the same in both outcomes), the call reports `false` on a failed push and
`true` on a successful one. -/
theorem c6_update_semantics (st : SysState) (mid : String)
    (kwargs : List (String × PyVal)) :
    (alookup st.memories mid = none →
        ∀ pushOk, sysUpdate st mid kwargs pushOk = (st, false))
      ∧ (∀ note, alookup st.memories mid = some note →
          (sysUpdate st mid kwargs false).2 = false
            ∧ (sysUpdate st mid kwargs false).1 = (sysUpdate st mid kwargs true).1
            ∧ alookup (sysUpdate st mid kwargs false).1.memories mid
                = some (kwargs.foldl (fun acc p => setattrNote acc p.1 p.2) note)
            ∧ (sysUpdate st mid kwargs true).2 = true) := by
  constructor
  · intro h pushOk
    simp [sysUpdate, h]
  · intro note h
    refine ⟨?_, ?_, ?_, ?_⟩ <;> simp [sysUpdate, h, alookup_aset_self]

/-- A concrete record for the C6 witness. -/
def c6Note : MemoryNote :=
  { content := "x", id := "i1", keywords := [], retrieval_count := 0,
    timestamp := 0, last_accessed := 0, context := "General",
    category := "Uncategorized", tags := [],
    memory_update_history := ["x"],
    memory_update_context := ["Initial memory creation."], extras := [] }

/-- Witness for C6 at a concrete one-record system. -/
theorem c6_update_semantics_witness :
    sysUpdate ⟨[("i1", c6Note)]⟩ "missing" [("content", PyVal.vStr "y")] true
        = (⟨[("i1", c6Note)]⟩, false)
      ∧ (sysUpdate ⟨[("i1", c6Note)]⟩ "i1" [("content", PyVal.vStr "y")] false).2
        = false
      ∧ alookup (sysUpdate ⟨[("i1", c6Note)]⟩ "i1"
            [("content", PyVal.vStr "y")] false).1.memories "i1"
        = some { c6Note with content := "y" } :=
  ⟨(c6_update_semantics ⟨[("i1", c6Note)]⟩ "missing" _).1 rfl true,
   ((c6_update_semantics ⟨[("i1", c6Note)]⟩ "i1" _).2 c6Note rfl).1,
   by
     have h := ((c6_update_semantics ⟨[("i1", c6Note)]⟩ "i1"
       [("content", PyVal.vStr "y")]).2 c6Note rfl).2.2.1
     rw [h]
     rfl⟩

/-! ## C9 -/

theorem setattrNote_preserves_history (m : MemoryNote) (k : String) (v : PyVal)
    (h1 : k ≠ "memory_update_history") :
    (setattrNote m k v).memory_update_history = m.memory_update_history := by
  have hK : ∀ o : Option (List String),
      (match o with
       | some ks => { m with keywords := ks }
       | none => m).memory_update_history = m.memory_update_history :=
    fun o => by cases o <;> rfl
  have hT : ∀ o : Option (List String),
      (match o with
       | some ts => { m with tags := ts }
       | none => m).memory_update_history = m.memory_update_history :=
    fun o => by cases o <;> rfl
  have hC : ∀ o : Option (List String),
      (match o with
       | some cs => { m with memory_update_context := cs }
       | none => m).memory_update_history = m.memory_update_history :=
    fun o => by cases o <;> rfl
  have hE : ∀ o : Option (List (String × String)),
      (match o with
       | some es => { m with extras := es }
       | none => m).memory_update_history = m.memory_update_history :=
    fun o => by cases o <;> rfl
  unfold setattrNote
  cases hf : alookup noteSetters k with
  | none => rfl
  | some f =>
      have hm := alookup_mem hf
      simp only [noteSetters, List.mem_cons, List.not_mem_nil, or_false,
        Prod.mk.injEq] at hm
      rcases hm with ⟨hk, hfe⟩ | ⟨hk, hfe⟩ | ⟨hk, hfe⟩ | ⟨hk, hfe⟩ | ⟨hk, hfe⟩
        | ⟨hk, hfe⟩ | ⟨hk, hfe⟩ | ⟨hk, hfe⟩ | ⟨hk, hfe⟩ | ⟨hk, hfe⟩
        | ⟨hk, hfe⟩ | ⟨hk, hfe⟩ <;>
        first
          | exact absurd hk h1
          | (subst hfe
             first
               | exact hK (pyStrListField v)
               | exact hT (pyStrListField v)
               | exact hC (pyStrListField v)
               | (cases v <;>
                   (first
                     | rfl
                     | (rename_i d
                        exact hE (amapM
                          (fun p : String × PyVal => (pyStrField p.2).map ((p.1, ·))) d)))))

theorem setattrNote_preserves_context (m : MemoryNote) (k : String) (v : PyVal)
    (h2 : k ≠ "memory_update_context") :
    (setattrNote m k v).memory_update_context = m.memory_update_context := by
  have hK : ∀ o : Option (List String),
      (match o with
       | some ks => { m with keywords := ks }
       | none => m).memory_update_context = m.memory_update_context :=
    fun o => by cases o <;> rfl
  have hT : ∀ o : Option (List String),
      (match o with
       | some ts => { m with tags := ts }
       | none => m).memory_update_context = m.memory_update_context :=
    fun o => by cases o <;> rfl
  have hH : ∀ o : Option (List String),
      (match o with
       | some hs => { m with memory_update_history := hs }
       | none => m).memory_update_context = m.memory_update_context :=
    fun o => by cases o <;> rfl
  have hE : ∀ o : Option (List (String × String)),
      (match o with
       | some es => { m with extras := es }
       | none => m).memory_update_context = m.memory_update_context :=
    fun o => by cases o <;> rfl
  unfold setattrNote
  cases hf : alookup noteSetters k with
  | none => rfl
  | some f =>
      have hm := alookup_mem hf
      simp only [noteSetters, List.mem_cons, List.not_mem_nil, or_false,
        Prod.mk.injEq] at hm
      rcases hm with ⟨hk, hfe⟩ | ⟨hk, hfe⟩ | ⟨hk, hfe⟩ | ⟨hk, hfe⟩ | ⟨hk, hfe⟩
        | ⟨hk, hfe⟩ | ⟨hk, hfe⟩ | ⟨hk, hfe⟩ | ⟨hk, hfe⟩ | ⟨hk, hfe⟩
        | ⟨hk, hfe⟩ | ⟨hk, hfe⟩ <;>
        first
          | exact absurd hk h2
          | (subst hfe
             first
               | exact hK (pyStrListField v)
               | exact hT (pyStrListField v)
               | exact hH (pyStrListField v)
               | (cases v <;>
                   (first
                     | rfl
                     | (rename_i d
                        exact hE (amapM
                          (fun p : String × PyVal => (pyStrField p.2).map ((p.1, ·))) d)))))

theorem setattrNote_preserves_histories (m : MemoryNote) (k : String) (v : PyVal)
    (h1 : k ≠ "memory_update_history") (h2 : k ≠ "memory_update_context") :
    (setattrNote m k v).memory_update_history = m.memory_update_history
      ∧ (setattrNote m k v).memory_update_context = m.memory_update_context :=
  ⟨setattrNote_preserves_history m k v h1, setattrNote_preserves_context m k v h2⟩

theorem setattrNote_preserves_last_accessed (m : MemoryNote) (k : String)
    (v : PyVal) (h : k ≠ "last_accessed") :
    (setattrNote m k v).last_accessed = m.last_accessed := by
  have hK : ∀ o : Option (List String),
      (match o with
       | some ks => { m with keywords := ks }
       | none => m).last_accessed = m.last_accessed :=
    fun o => by cases o <;> rfl
  have hT : ∀ o : Option (List String),
      (match o with
       | some ts => { m with tags := ts }
       | none => m).last_accessed = m.last_accessed :=
    fun o => by cases o <;> rfl
  have hH : ∀ o : Option (List String),
      (match o with
       | some hs => { m with memory_update_history := hs }
       | none => m).last_accessed = m.last_accessed :=
    fun o => by cases o <;> rfl
  have hC : ∀ o : Option (List String),
      (match o with
       | some cs => { m with memory_update_context := cs }
       | none => m).last_accessed = m.last_accessed :=
    fun o => by cases o <;> rfl
  have hE : ∀ o : Option (List (String × String)),
      (match o with
       | some es => { m with extras := es }
       | none => m).last_accessed = m.last_accessed :=
    fun o => by cases o <;> rfl
  unfold setattrNote
  cases hf : alookup noteSetters k with
  | none => rfl
  | some f =>
      have hm := alookup_mem hf
      simp only [noteSetters, List.mem_cons, List.not_mem_nil, or_false,
        Prod.mk.injEq] at hm
      rcases hm with ⟨hk, hfe⟩ | ⟨hk, hfe⟩ | ⟨hk, hfe⟩ | ⟨hk, hfe⟩ | ⟨hk, hfe⟩
        | ⟨hk, hfe⟩ | ⟨hk, hfe⟩ | ⟨hk, hfe⟩ | ⟨hk, hfe⟩ | ⟨hk, hfe⟩
        | ⟨hk, hfe⟩ | ⟨hk, hfe⟩ <;>
        first
          | exact absurd hk h
          | (subst hfe
             first
               | exact hK (pyStrListField v)
               | exact hT (pyStrListField v)
               | exact hH (pyStrListField v)
               | exact hC (pyStrListField v)
               | (cases v <;>
                   (first
                     | rfl
                     | (rename_i d
                        exact hE (amapM
                          (fun p : String × PyVal => (pyStrField p.2).map ((p.1, ·))) d)))))

theorem foldl_setattr_preserves_histories (kwargs : List (String × PyVal))
    (m : MemoryNote)
    (h : ∀ p ∈ kwargs,
      p.1 ≠ "memory_update_history" ∧ p.1 ≠ "memory_update_context") :
    (kwargs.foldl (fun acc p => setattrNote acc p.1 p.2) m).memory_update_history
        = m.memory_update_history
      ∧ (kwargs.foldl (fun acc p => setattrNote acc p.1 p.2) m).memory_update_context
        = m.memory_update_context := by
  induction kwargs generalizing m with
  | nil => exact ⟨rfl, rfl⟩
  | cons p t ih =>
      have hp := h p (List.mem_cons_self _ _)
      have hs := setattrNote_preserves_histories m p.1 p.2 hp.1 hp.2
      have ht := ih (setattrNote m p.1 p.2)
        (fun q hq => h q (List.mem_cons_of_mem _ hq))
      simp only [List.foldl_cons] at *
      exact ⟨ht.1.trans hs.1, ht.2.trans hs.2⟩

theorem foldl_setattr_preserves_last_accessed (kwargs : List (String × PyVal))
    (m : MemoryNote) (h : ∀ p ∈ kwargs, p.1 ≠ "last_accessed") :
    (kwargs.foldl (fun acc p => setattrNote acc p.1 p.2) m).last_accessed
      = m.last_accessed := by
  induction kwargs generalizing m with
  | nil => rfl
  | cons p t ih =>
      have hp := h p (List.mem_cons_self _ _)
      have hs := setattrNote_preserves_last_accessed m p.1 p.2 hp
      have ht := ih (setattrNote m p.1 p.2)
        (fun q hq => h q (List.mem_cons_of_mem _ hq))
      simp only [List.foldl_cons] at *
      exact ht.trans hs

theorem aremove_forall_ne {α : Type} (l : List (String × α)) (k : String) :
    ∀ p ∈ aremove l k, p.1 ≠ k := by
  induction l with
  | nil => simp [aremove]
  | cons q t ih =>
      obtain ⟨k', v'⟩ := q
      by_cases hk : k' = k
      · simpa [aremove, hk] using ih
      · intro p hp
        simp only [aremove, hk, if_false] at hp
        rcases List.mem_cons.mp hp with h | h
        · simpa [h] using hk
        · exact ih p h

theorem mkNote_creation_histories {data : List (String × PyVal)} {uuid : String}
    {now : Nat} {m : MemoryNote} (h : mkNote data uuid now = some m) :
    m.memory_update_history = [m.content]
      ∧ m.memory_update_context = ["Initial memory creation."] := by
  simp only [mkNote, bind, Option.bind_eq_some, Option.some.injEq] at h
  obtain ⟨e0, he0, h⟩ := h
  obtain ⟨ep, hep, h⟩ := h
  obtain ⟨ex, hex, h⟩ := h
  obtain ⟨c, hc, h⟩ := h
  obtain ⟨i, hi, h⟩ := h
  obtain ⟨kw, hkw, h⟩ := h
  obtain ⟨rc, hrc, h⟩ := h
  obtain ⟨ts, hts, h⟩ := h
  obtain ⟨la, hla, h⟩ := h
  obtain ⟨cx, hcx, h⟩ := h
  obtain ⟨cat, hcat, h⟩ := h
  obtain ⟨tg, htg, h⟩ := h
  subst h
  exact ⟨rfl, rfl⟩

/-- C9: immediately after construction, `edit_history` and `edit_reasons`
each hold exactly the one creation entry; a record-level `update` (with any
extra overrides that do not name the two history fields themselves) appends
exactly one entry to each, so both lists grow in lockstep and their length
strictly increases by one per content-changing update; and `last_accessed`
always reflects the update time, an override passed through the extra fields
being discarded. -/
theorem c9_history_invariants :
    (∀ (data : List (String × PyVal)) (uuid : String) (now : Nat)
        (m : MemoryNote), mkNote data uuid now = some m →
          m.memory_update_history.length = 1
            ∧ m.memory_update_context.length = 1)
      ∧ (∀ (m : MemoryNote) (c : String) (uc : Option String)
          (kwargs : List (String × PyVal)) (now : Nat),
          (∀ p ∈ kwargs,
            p.1 ≠ "memory_update_history" ∧ p.1 ≠ "memory_update_context") →
            (m.update c uc kwargs now).memory_update_history.length
                = m.memory_update_history.length + 1
              ∧ (m.update c uc kwargs now).memory_update_context.length
                = m.memory_update_context.length + 1)
      ∧ (∀ (m : MemoryNote) (c : String) (uc : Option String)
          (kwargs : List (String × PyVal)) (now : Nat),
          (m.update c uc kwargs now).last_accessed = now) := by
  refine ⟨?_, ?_, ?_⟩
  · intro data uuid now m h
    have hh := mkNote_creation_histories h
    simp [hh.1, hh.2]
  · intro m c uc kwargs now h
    have hrem : ∀ p ∈ aremove kwargs "last_accessed",
        p.1 ≠ "memory_update_history" ∧ p.1 ≠ "memory_update_context" :=
      fun p hp => h p (mem_of_mem_aremove hp)
    unfold MemoryNote.update
    constructor
    · rw [(foldl_setattr_preserves_histories (aremove kwargs "last_accessed")
        _ hrem).1]
      simp
    · rw [(foldl_setattr_preserves_histories (aremove kwargs "last_accessed")
        _ hrem).2]
      simp
  · intro m c uc kwargs now
    unfold MemoryNote.update
    rw [foldl_setattr_preserves_last_accessed (aremove kwargs "last_accessed")
      _ (aremove_forall_ne kwargs "last_accessed")]

/-- A concrete record for the C9 witness, the value of
`mkNote [("content", "c"), ("project", "p")] "u" 3`. -/
def c9Note : MemoryNote :=
  { content := "c", id := "u", keywords := [], retrieval_count := 0,
    timestamp := 3, last_accessed := 3, context := "General",
    category := "Uncategorized", tags := [],
    memory_update_history := ["c"],
    memory_update_context := ["Initial memory creation."],
    extras := [("project", "p")] }

/-- Witness for C9: creation entries, one update with a category override
and a discarded `last_accessed` override. -/
theorem c9_history_invariants_witness :
    (c9Note.memory_update_history.length = 1
      ∧ c9Note.memory_update_context.length = 1)
      ∧ ((c9Note.update "c2" (some "fix")
            [("category", PyVal.vStr "K"), ("last_accessed", PyVal.vDT 99)]
            7).memory_update_history.length = 2
          ∧ (c9Note.update "c2" (some "fix")
              [("category", PyVal.vStr "K"), ("last_accessed", PyVal.vDT 99)]
              7).memory_update_context.length = 2)
      ∧ (c9Note.update "c2" (some "fix")
          [("category", PyVal.vStr "K"), ("last_accessed", PyVal.vDT 99)]
          7).last_accessed = 7 :=
  ⟨c9_history_invariants.1 [("content", PyVal.vStr "c"),
      ("project", PyVal.vStr "p")] "u" 3 c9Note rfl,
   by
     have h := c9_history_invariants.2.1 c9Note "c2" (some "fix")
       [("category", PyVal.vStr "K"), ("last_accessed", PyVal.vDT 99)] 7
       (by decide)
     simpa [c9Note] using h,
   c9_history_invariants.2.2 c9Note "c2" (some "fix")
     [("category", PyVal.vStr "K"), ("last_accessed", PyVal.vDT 99)] 7⟩

/-! ## C10 -/

/-- C10: `search` silently discards every filter criterion whose value is not
a string before the exact-filter phase; in particular a call whose criteria
are all non-string behaves exactly as a call with no criteria, returning
similarity results only. -/
theorem c10_nonstring_criteria_discarded (st : SysState) (k : Nat)
    (threshold : ℚ) (criteria : List (String × PyVal)) (hits : List SimHit) :
    search st k threshold criteria hits
        = search st k threshold (criteria.filter (fun c => c.2.isStr)) hits
      ∧ ((∀ p ∈ criteria, p.2.isStr = false) →
          search st k threshold criteria hits
            = search st k threshold [] hits) := by
  constructor
  · unfold search
    rw [List.filter_filter]
    simp
  · intro h
    have hnil : criteria.filter (fun c => c.2.isStr) = [] := by
      rw [List.filter_eq_nil_iff]
      intro p hp
      simp [h p hp]
    unfold search
    rw [hnil]
    simp

/-- Witness for C10 at a concrete system, criteria and hit list. -/
theorem c10_nonstring_criteria_witness :
    search ⟨[("i1", c6Note)]⟩ 5 (7/10)
        [("a", PyVal.vInt 1), ("b", PyVal.vNone)] [⟨"i1", "x", 0⟩]
      = search ⟨[("i1", c6Note)]⟩ 5 (7/10) [] [⟨"i1", "x", 0⟩] :=
  (c10_nonstring_criteria_discarded ⟨[("i1", c6Note)]⟩ 5 (7/10)
    [("a", PyVal.vInt 1), ("b", PyVal.vNone)] [⟨"i1", "x", 0⟩]).2 (by decide)

/-! ## C5 -/

theorem alookup_of_mem_of_nodup {α : Type} {l : List (String × α)} {k : String}
    {v : α} (hm : (k, v) ∈ l) (hn : (l.map Prod.fst).Nodup) :
    alookup l k = some v := by
  induction l with
  | nil => simp at hm
  | cons p t ih =>
      obtain ⟨k', v'⟩ := p
      simp only [List.map_cons, List.nodup_cons] at hn
      rcases List.mem_cons.mp hm with h | h
      · injection h with h1 h2
        subst h1; subst h2
        simp [alookup_cons]
      · have hk : k' ≠ k := by
          intro he
          subst he
          exact hn.1 (List.mem_map.mpr ⟨(k', v), h, rfl⟩)
        simp [alookup_cons, hk]
        exact ih h hn.2

theorem pyEqB_vStr_lookup (v : String) (o : Option String) :
    pyEqB (.vStr v)
        (match o with | some x => PyVal.vStr x | none => PyVal.vNone) = true
      ↔ o = some v := by
  cases o with
  | none => simp [pyEqB]
  | some x =>
      simp only [pyEqB, decide_eq_true_eq, Option.some.injEq]
      exact ⟨fun h => h.symm, fun h => h.symm⟩

/-- The matching predicate of `_filter_by_keywords` for one record, with the
criteria already rendered as string values. -/
def extrasMatchB (e : List (String × String)) (criteria : List (String × PyVal)) :
    Bool :=
  criteria.all (fun c =>
      pyEqB c.2 (match alookup e c.1 with
                 | some x => .vStr x
                 | none => .vNone))
    && e.all (fun q => criteria.any (fun c => c.1 == q.1))

theorem filterByKeywords_eq_filterMap (st : SysState)
    (criteria : List (String × PyVal)) :
    filterByKeywords st criteria
      = st.memories.filterMap
          (fun p => if extrasMatchB p.2.extras criteria then some p.1 else none) := by
  rfl

theorem extrasMatchB_iff (e : List (String × String))
    (criteria : List (String × String))
    (hnodupCr : (criteria.map Prod.fst).Nodup) :
    extrasMatchB e (criteria.map (fun p => (p.1, PyVal.vStr p.2))) = true
      ↔ ∀ key, alookup e key = alookup criteria key := by
  unfold extrasMatchB
  simp only [Bool.and_eq_true, List.all_eq_true]
  constructor
  · rintro ⟨hA, hB⟩ key
    cases hc : alookup criteria key with
    | some v =>
        have hm := alookup_mem hc
        have h := hA (key, PyVal.vStr v) (List.mem_map.mpr ⟨(key, v), hm, rfl⟩)
        exact (pyEqB_vStr_lookup v (alookup e key)).mp (by simpa using h)
    | none =>
        cases he : alookup e key with
        | none => rfl
        | some x =>
            exfalso
            have hmem := alookup_mem he
            have h := hB (key, x) hmem
            rw [List.any_eq_true] at h
            obtain ⟨c, hcm, hck⟩ := h
            obtain ⟨c0, hc0m, rfl⟩ := List.mem_map.mp hcm
            simp only [beq_iff_eq] at hck
            have hsome : (alookup criteria key).isSome := by
              rw [alookup_isSome_iff]
              exact List.mem_map.mpr ⟨c0, hc0m, by simpa using hck⟩
            rw [hc] at hsome
            simp at hsome
  · intro h
    refine ⟨?_, ?_⟩
    · intro c hcm
      obtain ⟨c0, hc0m, rfl⟩ := List.mem_map.mp hcm
      have hl : alookup criteria c0.1 = some c0.2 :=
        alookup_of_mem_of_nodup hc0m hnodupCr
      have he : alookup e c0.1 = some c0.2 := (h c0.1).trans hl
      simpa using (pyEqB_vStr_lookup c0.2 (alookup e c0.1)).mpr he
    · intro q hqm
      have hs : (alookup e q.1).isSome := by
        rw [alookup_isSome_iff]
        exact List.mem_map.mpr ⟨q, hqm, rfl⟩
      rw [h q.1, alookup_isSome_iff] at hs
      obtain ⟨c, hcm, hck⟩ := List.mem_map.mp hs
      rw [List.any_eq_true]
      exact ⟨(c.1, PyVal.vStr c.2), List.mem_map.mpr ⟨c, hcm, rfl⟩,
        by simpa using hck⟩

/-- C5: `_filter_by_keywords` returns exactly the ids of records whose extras
map is pointwise equal to the criteria: every criterion key maps to the same
value and the extras hold no key outside the criteria; a record with any
additional extras attribute is excluded even when all criteria match. -/
theorem c5_filter_strict_equality (st : SysState)
    (criteria : List (String × String))
    (hst : (st.memories.map Prod.fst).Nodup)
    (hcr : (criteria.map Prod.fst).Nodup) :
    ∀ mid,
      mid ∈ filterByKeywords st (criteria.map (fun p => (p.1, PyVal.vStr p.2)))
        ↔ ∃ note, alookup st.memories mid = some note
            ∧ ∀ key, alookup note.extras key = alookup criteria key := by
  intro mid
  rw [filterByKeywords_eq_filterMap, List.mem_filterMap]
  constructor
  · rintro ⟨⟨k, note⟩, hmem, hf⟩
    by_cases hb : extrasMatchB note.extras
        (criteria.map (fun p => (p.1, PyVal.vStr p.2))) = true
    · simp only [hb, if_true, Option.some.injEq] at hf
      subst hf
      exact ⟨note, alookup_of_mem_of_nodup hmem hst,
        (extrasMatchB_iff note.extras criteria hcr).mp hb⟩
    · simp [hb] at hf
  · rintro ⟨note, hl, hkey⟩
    refine ⟨(mid, note), alookup_mem hl, ?_⟩
    rw [if_pos ((extrasMatchB_iff note.extras criteria hcr).mpr hkey)]

/-- Two concrete records for the C5 witness: extras `{a:1, b:2}` and
`{a:1}`. -/
def c5n1 : MemoryNote :=
  { c6Note with id := "i1", extras := [("a", "1"), ("b", "2")] }

def c5n2 : MemoryNote :=
  { c6Note with id := "i2", extras := [("a", "1")] }

def c5St : SysState := ⟨[("i1", c5n1), ("i2", c5n2)]⟩

/-- Witness for C5: criteria `{a:1}` select the record whose extras are
exactly `{a:1}` and exclude the record with extras `{a:1, b:2}`. -/
theorem c5_filter_strict_equality_witness :
    "i2" ∈ filterByKeywords c5St
        ([("a", "1")].map (fun p => (p.1, PyVal.vStr p.2)))
      ∧ ¬ ("i1" ∈ filterByKeywords c5St
        ([("a", "1")].map (fun p => (p.1, PyVal.vStr p.2)))) := by
  constructor
  · exact (c5_filter_strict_equality c5St [("a", "1")] (by decide) (by decide)
      "i2").mpr ⟨c5n2, rfl, fun key => rfl⟩
  · intro hmem
    obtain ⟨note, hn, hkey⟩ := (c5_filter_strict_equality c5St [("a", "1")]
      (by decide) (by decide) "i1").mp hmem
    rw [show alookup c5St.memories "i1" = some c5n1 from rfl] at hn
    obtain rfl := Option.some.inj hn
    exact absurd (hkey "b") (by decide)

/-! ## C2 -/

/-- The stored form `serialize_for_storage` produces for any record. -/
def storedForm (m : MemoryNote) : List (String × PyVal) :=
  [("content", .vStr m.content), ("id", .vStr m.id),
   ("keywords", .vJson (.jList (m.keywords.map JVal.jStr))),
   ("retrieval_count", .vDec m.retrieval_count),
   ("timestamp", .vIso m.timestamp), ("last_accessed", .vIso m.last_accessed),
   ("context", .vStr m.context), ("category", .vStr m.category),
   ("tags", .vJson (.jList (m.tags.map JVal.jStr))),
   ("memory_update_history",
     .vJson (.jList (m.memory_update_history.map JVal.jStr))),
   ("memory_update_context",
     .vJson (.jList (m.memory_update_context.map JVal.jStr))),
   ("extras", .vJson (.jDict (m.extras.map (fun p => (p.1, JVal.jStr p.2)))))]

theorem serializeForStorage_eq (m : MemoryNote) :
    serializeForStorage m = some (storedForm m) := by
  simp [serializeForStorage, serializeAll, modelDump, amapM, registrySerialize,
    getHandler, alookup, Handler.serialize, toJson, toJsonList_map_vStr,
    toJsonDict_map_vStr, pyToStr, storedForm]

/-- The attribute map `deserialize_all` recovers from the stored form. -/
def rehydratedForm (m : MemoryNote) : List (String × PyVal) :=
  [("content", .vStr m.content), ("id", .vStr m.id),
   ("keywords", .vList (m.keywords.map PyVal.vStr)),
   ("retrieval_count", .vInt m.retrieval_count),
   ("timestamp", .vDT m.timestamp), ("last_accessed", .vDT m.last_accessed),
   ("context", .vStr m.context), ("category", .vStr m.category),
   ("tags", .vList (m.tags.map PyVal.vStr)),
   ("memory_update_history", .vList (m.memory_update_history.map PyVal.vStr)),
   ("memory_update_context", .vList (m.memory_update_context.map PyVal.vStr)),
   ("extras", .vDict (m.extras.map (fun p => (p.1, PyVal.vStr p.2))))]

theorem deserializeAll_storedForm (m : MemoryNote) (now : Nat) :
    deserializeAll (storedForm m) now = some (rehydratedForm m) := by
  simp [deserializeAll, storedForm, rehydratedForm, amapM, registryDeserialize,
    getHandler, alookup, Handler.deserialize, PyVal.isStr, jsonLoadsOfStr,
    jToPy, jToPyList_map_jStr, jToPyDict_map_jStr, fromIso, pyToStr,
    intOfPy_vDec]

/-- A record as it comes back from a storage round trip: all fields intact
except the two history fields, which the constructor re-seeds with the
creation entries. -/
def resetHistories (m : MemoryNote) : MemoryNote :=
  { m with memory_update_history := [m.content],
           memory_update_context := ["Initial memory creation."] }

theorem mkNote_rehydratedForm (m : MemoryNote) (uuid : String) (now2 : Nat) :
    mkNote (rehydratedForm m) uuid now2 = some (resetHistories m) := by
  simp [mkNote, rehydratedForm, aremove, alookup, extrasOfData, knownFieldNames,
    afoldlM, extrasValidate_pairs, optField, pyStrField_vStr,
    pyStrListField_vList, amapM_pyStrField_map_vStr, pyIntField_vInt,
    pyDTField_vDT, resetHistories, List.filter, List.contains]

/-- C2 (amended): a storage round trip through `serialize_for_storage` and
`deserialize_from_storage` preserves every fixed schema field and the extras
mapping exactly, except `memory_update_history` and `memory_update_context`:
the constructor discards the stored histories and re-seeds them with the
creation entries, so the round trip of any record equals the record with its
histories reset (and is the identity exactly on records still carrying only
their creation entries). -/
theorem c2_roundtrip_amended (m : MemoryNote) (now : Nat) (uuid : String)
    (now2 : Nat) :
    serializeForStorage m = some (storedForm m)
      ∧ deserializeFromStorage (storedForm m) now uuid now2
          = some (resetHistories m) := by
  refine ⟨serializeForStorage_eq m, ?_⟩
  rw [deserializeFromStorage, deserializeAll_storedForm]
  exact mkNote_rehydratedForm m uuid now2

/-- The record obtained by constructing with content `"c"` and one extras
attribute and then updating the content once: its history holds two
entries. -/
def c2Note : MemoryNote :=
  { content := "c2", id := "u1", keywords := [], retrieval_count := 0,
    timestamp := 5, last_accessed := 7, context := "General",
    category := "Uncategorized", tags := [],
    memory_update_history := ["c", "c2"],
    memory_update_context := ["Initial memory creation.", "Memory update."],
    extras := [("a", "1")] }

/-- C2 counterexample: the record above is a valid record reached by one
construction and one update, yet its storage round trip differs from it
field-by-field (the histories come back reset), refuting the claim that
`deserialize(serialize(record))` equals the record including
`edit_history`/`edit_reasons`. -/
theorem c2_roundtrip_counterexample :
    (mkNote [("content", PyVal.vStr "c"), ("a", PyVal.vStr "1")] "u1" 5).map
        (fun m => m.update "c2" none [] 7) = some c2Note
      ∧ (serializeForStorage c2Note).bind
          (fun d => deserializeFromStorage d 9 "u2" 9) ≠ some c2Note := by
  constructor
  · rfl
  · decide

/-! ## C4 and C8 -/

/-- The ids collected by the exact-filter phase: none when the phase is
skipped for lack of criteria, the `_filter_by_keywords` matches otherwise. -/
def exactIds (st : SysState) (criteria : List (String × PyVal)) : List String :=
  if criteria.isEmpty then [] else filterByKeywords st criteria

theorem dumpId_modelDump (note : MemoryNote) :
    dumpId (modelDump note) = note.id := rfl

theorem scontains_iff (l : List String) (a : String) :
    l.contains a = true ↔ a ∈ l := by
  induction l with
  | nil => simp
  | cons x t ih => simp [List.contains_cons, ih, beq_iff_eq]

theorem mem_filterByKeywords_isSome {st : SysState}
    {criteria : List (String × PyVal)} {mid : String}
    (h : mid ∈ filterByKeywords st criteria) :
    (alookup st.memories mid).isSome := by
  rw [filterByKeywords_eq_filterMap, List.mem_filterMap] at h
  obtain ⟨⟨kk, note⟩, hmem, hf⟩ := h
  by_cases hb : extrasMatchB note.extras criteria = true
  · simp only [hb, if_true, Option.some.injEq] at hf
    subst hf
    rw [alookup_isSome_iff]
    exact List.mem_map.mpr ⟨(kk, note), hmem, rfl⟩
  · simp [hb] at hf

theorem searchPhase1_forall_mem {st : SysState}
    {criteria : List (String × PyVal)}
    (wf : ∀ p ∈ st.memories, p.2.id = p.1) :
    ∀ d ∈ searchPhase1 st criteria, dumpId d ∈ exactIds st criteria := by
  intro d hd
  unfold searchPhase1 at hd
  unfold exactIds
  cases he : criteria.isEmpty with
  | true => simp [he] at hd
  | false =>
      simp only [he, Bool.false_eq_true, if_false] at hd ⊢
      obtain ⟨mid, hmid, hf⟩ := List.mem_filterMap.mp hd
      obtain ⟨note, hnote, hdump⟩ := Option.map_eq_some'.mp hf
      subst hdump
      rw [dumpId_modelDump, wf (mid, note) (alookup_mem hnote)]
      exact hmid

theorem exactIds_mem_phase1_ids {st : SysState}
    {criteria : List (String × PyVal)}
    (wf : ∀ p ∈ st.memories, p.2.id = p.1) :
    ∀ mid ∈ exactIds st criteria,
      mid ∈ (searchPhase1 st criteria).map dumpId := by
  intro mid hm
  unfold exactIds at hm
  cases he : criteria.isEmpty with
  | true => simp [he] at hm
  | false =>
      simp only [he, Bool.false_eq_true, if_false] at hm
      have hs := mem_filterByKeywords_isSome hm
      obtain ⟨note, hnote⟩ := Option.isSome_iff_exists.mp hs
      have hmem : modelDump note ∈ searchPhase1 st criteria := by
        unfold searchPhase1
        simp only [he, Bool.false_eq_true, if_false]
        exact List.mem_filterMap.mpr ⟨mid, hm, by rw [hnote]; rfl⟩
      exact List.mem_map.mpr ⟨modelDump note, hmem,
        by rw [dumpId_modelDump]; exact wf (mid, note) (alookup_mem hnote)⟩

theorem searchPhase2_spec {st : SysState} {threshold : ℚ}
    {criteria : List (String × PyVal)} {hits : List SimHit}
    (wf : ∀ p ∈ st.memories, p.2.id = p.1) :
    ∀ d ∈ searchPhase2 st threshold criteria hits,
      dumpId d ∉ exactIds st criteria
        ∧ ∃ h ∈ hits, h.id = dumpId d ∧ h.distance ≤ threshold := by
  intro d hd
  unfold searchPhase2 at hd
  obtain ⟨h, hh, hf⟩ := List.mem_filterMap.mp hd
  by_cases hc : (!((searchPhase1 st criteria).map dumpId).contains h.id
      && decide (h.distance ≤ threshold)) = true
  · rw [if_pos hc, Option.some.injEq] at hf
    have hc2 := hc
    rw [Bool.and_eq_true] at hc2
    obtain ⟨hnotin0, hdist0⟩ := hc2
    have hnotin : ((searchPhase1 st criteria).map dumpId).contains h.id = false := by
      rw [Bool.not_eq_true'] at hnotin0
      exact hnotin0
    have hdist : h.distance ≤ threshold := of_decide_eq_true hdist0
    have hid : dumpId d = h.id := by
      cases halo : alookup st.memories h.id with
      | none =>
          rw [← hf]
          simp only [halo]
          rfl
      | some note =>
          rw [← hf]
          simp only [halo]
          rw [dumpId_modelDump]
          exact wf (h.id, note) (alookup_mem halo)
    refine ⟨?_, h, hh, hid.symm, hdist⟩
    intro hmem
    rw [hid] at hmem
    have h2 := exactIds_mem_phase1_ids wf h.id hmem
    rw [← scontains_iff, hnotin] at h2
    exact absurd h2 Bool.false_ne_true
  · rw [if_neg hc] at hf
    exact absurd hf (by simp)

/-- C4: every result of the exact-filter phase appears at a strictly lower
index than every similarity result, whatever the reported distances: the
result ids drawn from the exact phase form a prefix of the returned list,
which is truncated to at most `k` entries. -/
theorem c4_exact_filter_ranked_first (st : SysState) (k : Nat) (threshold : ℚ)
    (criteria : List (String × PyVal)) (hits : List SimHit)
    (wf : ∀ p ∈ st.memories, p.2.id = p.1) :
    (search st k threshold criteria hits).length ≤ k
      ∧ ∀ (i j : Nat) (hi : i < (search st k threshold criteria hits).length)
          (hj : j < (search st k threshold criteria hits).length), i ≤ j →
          dumpId ((search st k threshold criteria hits).get ⟨j, hj⟩)
            ∈ exactIds st (criteria.filter (fun c => c.2.isStr)) →
          dumpId ((search st k threshold criteria hits).get ⟨i, hi⟩)
            ∈ exactIds st (criteria.filter (fun c => c.2.isStr)) := by
  have hres : search st k threshold criteria hits
      = (searchPhase1 st (criteria.filter (fun c => c.2.isStr))
          ++ searchPhase2 st threshold (criteria.filter (fun c => c.2.isStr))
              hits).take k := rfl
  constructor
  · rw [hres]
    exact List.length_take_le k _
  · intro i j hi hj hij hjmem
    have hjlen : j < (searchPhase1 st (criteria.filter (fun c => c.2.isStr))
        ++ searchPhase2 st threshold (criteria.filter (fun c => c.2.isStr))
            hits).length := by
      rw [hres, List.length_take] at hj
      exact lt_of_lt_of_le hj (min_le_right _ _)
    have hilen : i < (searchPhase1 st (criteria.filter (fun c => c.2.isStr))
        ++ searchPhase2 st threshold (criteria.filter (fun c => c.2.isStr))
            hits).length := lt_of_le_of_lt hij hjlen
    have hgetj : (search st k threshold criteria hits).get ⟨j, hj⟩
        = (searchPhase1 st (criteria.filter (fun c => c.2.isStr))
            ++ searchPhase2 st threshold (criteria.filter (fun c => c.2.isStr))
                hits).get ⟨j, hjlen⟩ := by
      simp only [hres, List.get_eq_getElem, List.getElem_take]
    have hgeti : (search st k threshold criteria hits).get ⟨i, hi⟩
        = (searchPhase1 st (criteria.filter (fun c => c.2.isStr))
            ++ searchPhase2 st threshold (criteria.filter (fun c => c.2.isStr))
                hits).get ⟨i, hilen⟩ := by
      simp only [hres, List.get_eq_getElem, List.getElem_take]
    rw [hgetj] at hjmem
    rw [hgeti]
    have hjL : j < (searchPhase1 st (criteria.filter (fun c => c.2.isStr))).length := by
      by_contra hge
      push_neg at hge
      rw [List.get_eq_getElem, List.getElem_append_right hge] at hjmem
      exact (searchPhase2_spec wf _ (List.getElem_mem _)).1 hjmem
    have hiL : i < (searchPhase1 st (criteria.filter (fun c => c.2.isStr))).length :=
      lt_of_le_of_lt hij hjL
    rw [List.get_eq_getElem, List.getElem_append_left hiL]
    exact searchPhase1_forall_mem wf _ (List.getElem_mem _)

/-- A third record for the C4 witness, extras `{a:1}` like `c5n2`. -/
def c5n3 : MemoryNote :=
  { c6Note with id := "i3", extras := [("a", "1")] }

/-- A system with two records matching `{a:1}` exactly. -/
def c4St : SysState := ⟨[("i2", c5n2), ("i3", c5n3)]⟩

/-- Witness for C4 at a concrete system with two exact matches and one
similarity hit of distance zero: the entry below an exact-origin entry is
itself exact-origin, and the result respects the `k` bound. -/
theorem c4_exact_filter_ranked_first_witness :
    (search c4St 5 1 [("a", PyVal.vStr "1")] [⟨"i9", "far", 0⟩]).length ≤ 5
      ∧ dumpId ((search c4St 5 1 [("a", PyVal.vStr "1")]
            [⟨"i9", "far", 0⟩]).get ⟨0, by decide⟩)
          ∈ exactIds c4St ([("a", PyVal.vStr "1")].filter (fun c => c.2.isStr)) :=
  ⟨(c4_exact_filter_ranked_first c4St 5 1 [("a", PyVal.vStr "1")]
      [⟨"i9", "far", 0⟩] (by decide)).1,
   (c4_exact_filter_ranked_first c4St 5 1 [("a", PyVal.vStr "1")]
      [⟨"i9", "far", 0⟩] (by decide)).2 0 1 (by decide) (by decide)
      (by decide) (by decide)⟩

/-- C8: every entry of a search result either stems from the exact-filter
phase or corresponds to a reported similarity hit whose distance is within
the threshold; a hit with distance strictly above the threshold never
contributes a result. -/
theorem c8_threshold_exclusion (st : SysState) (k : Nat) (threshold : ℚ)
    (criteria : List (String × PyVal)) (hits : List SimHit)
    (wf : ∀ p ∈ st.memories, p.2.id = p.1) :
    ∀ d ∈ search st k threshold criteria hits,
      dumpId d ∈ exactIds st (criteria.filter (fun c => c.2.isStr))
        ∨ ∃ h ∈ hits, h.id = dumpId d ∧ h.distance ≤ threshold := by
  intro d hd
  have hd' : d ∈ searchPhase1 st (criteria.filter (fun c => c.2.isStr))
      ++ searchPhase2 st threshold (criteria.filter (fun c => c.2.isStr)) hits :=
    List.mem_of_mem_take hd
  rcases List.mem_append.mp hd' with h | h
  · exact Or.inl (searchPhase1_forall_mem wf d h)
  · exact Or.inr (searchPhase2_spec wf d h).2

/-- Witness for C8: with only an out-of-threshold similarity hit reported,
the one returned entry must stem from the exact-filter phase. -/
theorem c8_threshold_exclusion_witness :
    dumpId (modelDump c5n1)
      ∈ exactIds c5St ([("a", PyVal.vStr "1"), ("b", PyVal.vStr "2")].filter
          (fun c => c.2.isStr)) := by
  have hmem : modelDump c5n1 ∈ search c5St 5 1
      [("a", PyVal.vStr "1"), ("b", PyVal.vStr "2")] [⟨"i9", "far", 9⟩] := by
    rw [show search c5St 5 1 [("a", PyVal.vStr "1"), ("b", PyVal.vStr "2")]
        [⟨"i9", "far", 9⟩] = [modelDump c5n1] from rfl]
    exact List.mem_singleton.mpr rfl
  rcases c8_threshold_exclusion c5St 5 1
      [("a", PyVal.vStr "1"), ("b", PyVal.vStr "2")] [⟨"i9", "far", 9⟩]
      (by decide) (modelDump c5n1) hmem with h | h
  · exact h
  · obtain ⟨hh, hm, hid, hd⟩ := h
    rw [List.mem_singleton.mp hm] at hd
    exact absurd hd (by decide)

/-! ## C7 -/

theorem alookup_append_none {α : Type} {l1 : List (String × α)} {k : String}
    (h : alookup l1 k = none) (l2 : List (String × α)) :
    alookup (l1 ++ l2) k = alookup l2 k := by
  induction l1 with
  | nil => rfl
  | cons p t ih =>
      obtain ⟨k', v'⟩ := p
      rw [alookup_cons] at h
      by_cases hk : k' = k
      · simp [hk] at h
      · simp only [hk] at h
        simp only [List.cons_append, alookup_cons, hk, if_false]
        exact ih h

theorem aset_append_of_none {α : Type} {l1 : List (String × α)} {k : String}
    (h : alookup l1 k = none) (l2 : List (String × α)) (v : α) :
    aset (l1 ++ l2) k v = l1 ++ aset l2 k v := by
  induction l1 with
  | nil => rfl
  | cons p t ih =>
      obtain ⟨k', v'⟩ := p
      rw [alookup_cons] at h
      by_cases hk : k' = k
      · simp [hk] at h
      · rw [if_neg hk] at h
        simp only [List.cons_append, aset, hk, if_false]
        rw [show (t.append l2) = t ++ l2 from rfl, ih h]

theorem contains_false_ne {p1 name : String}
    (h : knownFieldNames.contains p1 = false) (hm : name ∈ knownFieldNames) :
    p1 ≠ name := by
  intro he
  subst he
  rw [(scontains_iff _ _).mpr hm] at h
  exact absurd h (by decide)

theorem afoldlM_extras (criteria : List (String × String))
    (acc : List (String × PyVal))
    (hfresh : ∀ p ∈ criteria, alookup acc p.1 = none)
    (hnd : (criteria.map Prod.fst).Nodup) :
    afoldlM
        (fun acc p => (pyToStrPlain p.2).map (fun s => aset acc p.1 (PyVal.vStr s)))
        acc (criteria.map (fun p => (p.1, PyVal.vStr p.2)))
      = some (acc ++ criteria.map (fun p => (p.1, PyVal.vStr p.2))) := by
  induction criteria generalizing acc with
  | nil => simp [afoldlM]
  | cons q t ih =>
      simp only [List.map_cons, List.map_cons, afoldlM, pyToStrPlain_vStr,
        Option.map_some']
      rw [aset_fresh (hfresh q (List.mem_cons_self _ _)) (PyVal.vStr q.2)]
      simp only [List.map_cons, List.nodup_cons] at hnd
      have hfresh2 : ∀ p ∈ t, alookup (acc ++ [(q.1, PyVal.vStr q.2)]) p.1 = none := by
        intro p hp
        rw [alookup_append_none (hfresh p (List.mem_cons_of_mem _ hp)),
          alookup_cons]
        have hne : q.1 ≠ p.1 := by
          intro he
          exact hnd.1 (List.mem_map.mpr ⟨p, hp, he.symm⟩)
        simp [hne]
      rw [ih (acc ++ [(q.1, PyVal.vStr q.2)]) hfresh2 hnd.2]
      simp

theorem filterByKeywords_append (l1 l2 : List (String × MemoryNote))
    (criteria : List (String × PyVal)) :
    filterByKeywords ⟨l1 ++ l2⟩ criteria
      = filterByKeywords ⟨l1⟩ criteria ++ filterByKeywords ⟨l2⟩ criteria := by
  simp [filterByKeywords_eq_filterMap, List.filterMap_append]

theorem filterByKeywords_singleton_match (uuid : String) (note : MemoryNote)
    (criteria : List (String × PyVal))
    (h : extrasMatchB note.extras criteria = true) :
    filterByKeywords ⟨[(uuid, note)]⟩ criteria = [uuid] := by
  rw [filterByKeywords_eq_filterMap]
  simp [h]

theorem extrasMatchB_self (criteria : List (String × String))
    (hnd : (criteria.map Prod.fst).Nodup) :
    extrasMatchB criteria (criteria.map (fun p => (p.1, PyVal.vStr p.2))) = true :=
  (extrasMatchB_iff criteria criteria hnd).mpr (fun _ => rfl)

/-- The record `add_note` creates for a content plus a criteria map whose
keys are all outside the fixed schema. -/
def freshNote (c : String) (criteria : List (String × String)) (uuid : String)
    (now : Nat) : MemoryNote :=
  { content := c, id := uuid, keywords := [], retrieval_count := 0,
    timestamp := now, last_accessed := now, context := "General",
    category := "Uncategorized", tags := [],
    memory_update_history := [c],
    memory_update_context := ["Initial memory creation."],
    extras := criteria }

theorem mkNote_unknown_criteria (c : String)
    (criteria : List (String × String)) (uuid : String) (now : Nat)
    (hunk : ∀ p ∈ criteria, knownFieldNames.contains p.1 = false)
    (hnd : (criteria.map Prod.fst).Nodup) :
    mkNote (("content", PyVal.vStr c)
        :: criteria.map (fun p => (p.1, PyVal.vStr p.2))) uuid now
      = some (freshNote c criteria uuid now) := by
  have htail : ∀ name ∈ knownFieldNames,
      ∀ p ∈ criteria.map (fun p => (p.1, PyVal.vStr p.2)), p.1 ≠ name := by
    intro name hm p hp
    obtain ⟨p0, hp0, rfl⟩ := List.mem_map.mp hp
    exact contains_false_ne (hunk p0 hp0) hm
  have hall : ∀ name ∈ knownFieldNames,
      ∀ p ∈ ("content", PyVal.vStr c)
        :: criteria.map (fun q => (q.1, PyVal.vStr q.2)),
        p.1 = "content" ∨ p.1 ≠ name := by
    intro name hm p hp
    rcases List.mem_cons.mp hp with rfl | hp
    · exact Or.inl rfl
    · exact Or.inr (htail name hm p hp)
  have h1 : aremove (("content", PyVal.vStr c)
      :: criteria.map (fun q => (q.1, PyVal.vStr q.2)))
      "memory_update_history"
      = ("content", PyVal.vStr c)
        :: criteria.map (fun q => (q.1, PyVal.vStr q.2)) :=
    aremove_of_forall_ne (by
      intro p hp
      rcases hall "memory_update_history" (by decide) p hp with h | h
      · rw [h]; decide
      · exact h)
  have h2 : aremove (("content", PyVal.vStr c)
      :: criteria.map (fun q => (q.1, PyVal.vStr q.2)))
      "memory_update_context"
      = ("content", PyVal.vStr c)
        :: criteria.map (fun q => (q.1, PyVal.vStr q.2)) :=
    aremove_of_forall_ne (by
      intro p hp
      rcases hall "memory_update_context" (by decide) p hp with h | h
      · rw [h]; decide
      · exact h)
  have h3 : alookup (("content", PyVal.vStr c)
      :: criteria.map (fun q => (q.1, PyVal.vStr q.2))) "extras" = none :=
    alookup_of_forall_ne (by
      intro p hp
      rcases hall "extras" (by decide) p hp with h | h
      · rw [h]; decide
      · exact h)
  have h4 : aremove (("content", PyVal.vStr c)
      :: criteria.map (fun q => (q.1, PyVal.vStr q.2))) "extras"
      = ("content", PyVal.vStr c)
        :: criteria.map (fun q => (q.1, PyVal.vStr q.2)) :=
    aremove_of_forall_ne (by
      intro p hp
      rcases hall "extras" (by decide) p hp with h | h
      · rw [h]; decide
      · exact h)
  have hnotin : ∀ p0 ∈ criteria,
      (knownFieldNames.filter (· ≠ "extras")).contains p0.1 = false := by
    intro p0 hp0
    cases hcont : (knownFieldNames.filter (· ≠ "extras")).contains p0.1 with
    | false => rfl
    | true =>
        exfalso
        rw [scontains_iff] at hcont
        have hmem : p0.1 ∈ knownFieldNames := List.mem_of_mem_filter hcont
        have htrue : knownFieldNames.contains p0.1 = true :=
          (scontains_iff _ _).mpr hmem
        rw [hunk p0 hp0] at htrue
        exact absurd htrue (by decide)
  have h5 : (criteria.map (fun q => (q.1, PyVal.vStr q.2))).filter
      (fun p => (knownFieldNames.filter (· ≠ "extras")).contains p.1) = [] := by
    rw [List.filter_eq_nil_iff]
    intro p hp hcont
    obtain ⟨p0, hp0, rfl⟩ := List.mem_map.mp hp
    rw [hnotin p0 hp0] at hcont
    exact absurd hcont (by decide)
  have h6 : (criteria.map (fun q => (q.1, PyVal.vStr q.2))).filter
      (fun p => !(knownFieldNames.filter (· ≠ "extras")).contains p.1)
      = criteria.map (fun q => (q.1, PyVal.vStr q.2)) := by
    rw [List.filter_eq_self]
    intro p hp
    obtain ⟨p0, hp0, rfl⟩ := List.mem_map.mp hp
    rw [Bool.not_eq_true', hnotin p0 hp0]
  have h7 := afoldlM_extras criteria [] (fun p _ => rfl) hnd
  simp only [List.nil_append] at h7
  have hcontent : ((knownFieldNames.filter (· ≠ "extras")).contains "content")
      = true := by decide
  unfold mkNote
  simp only [h1, h2, h3, extrasOfData, bind, Option.some_bind, h4,
    List.filter_cons, hcontent, h5, h6, eq_self_iff_true, if_true,
    Bool.not_true, Bool.false_eq_true, if_false, h7, extrasValidate_pairs]
  simp [optField, alookup_cons, alookup, pyStrField, freshNote, bind]

theorem setattrNote_content (m : MemoryNote) (s : String) :
    setattrNote m "content" (PyVal.vStr s) = { m with content := s } := rfl

/-- C7 counterexample: upserting twice with the non-empty, string-valued
criteria set `{category: "x"}` creates two records, because the criteria key
names a fixed schema field, so the inserted record carries it as `category`
rather than in `extras` and the second call finds no match; the claim says
the record count stays at exactly 1. -/
theorem c7_upsert_counterexample :
    ((updateByKeywords ⟨[]⟩ "c" [("category", PyVal.vStr "x")] "u1" 0
          true).bind
        (fun p =>
          updateByKeywords p.1 "c2" [("category", PyVal.vStr "x")] "u2" 0
            true)).map
        (fun p => p.1.memories.length)
      = some 2 := by
  rfl

/-- C7 (amended): for a non-empty string-valued criteria set whose keys all
lie outside the fixed record schema (so that they land in `extras`): when no
record matches and the generated id is fresh, `update_by_keywords` appends
exactly one new record carrying the content and the criteria as its extras,
and a second call then matches that record and only rewrites its content,
leaving the record count at the original count plus one; when records match,
only the first match has its content replaced and every other record is
untouched. -/
theorem c7_upsert_by_attributes_amended (st : SysState)
    (content content2 : String) (criteria : List (String × String))
    (uuid uuid2 : String) (now now2 : Nat) (pushOk : Bool)
    (hne : criteria ≠ [])
    (hunk : ∀ p ∈ criteria, knownFieldNames.contains p.1 = false)
    (hnd : (criteria.map Prod.fst).Nodup) :
    (filterByKeywords st (criteria.map (fun p => (p.1, PyVal.vStr p.2))) = [] →
      alookup st.memories uuid = none →
        updateByKeywords st content
            (criteria.map (fun p => (p.1, PyVal.vStr p.2))) uuid now pushOk
            = some (⟨st.memories
                ++ [(uuid, freshNote content criteria uuid now)]⟩, true)
          ∧ (freshNote content criteria uuid now).content = content
          ∧ (freshNote content criteria uuid now).extras = criteria
          ∧ updateByKeywords
              ⟨st.memories ++ [(uuid, freshNote content criteria uuid now)]⟩
              content2 (criteria.map (fun p => (p.1, PyVal.vStr p.2)))
              uuid2 now2 pushOk
              = some (⟨st.memories ++ [(uuid,
                  { freshNote content criteria uuid now
                      with content := content2 })]⟩, true)
          ∧ (st.memories
              ++ [(uuid, freshNote content criteria uuid now)]).length
              = st.memories.length + 1)
      ∧ (∀ mid rest note,
          filterByKeywords st (criteria.map (fun p => (p.1, PyVal.vStr p.2)))
              = mid :: rest →
          alookup st.memories mid = some note →
            updateByKeywords st content
                (criteria.map (fun p => (p.1, PyVal.vStr p.2))) uuid now pushOk
                = some (⟨aset st.memories mid
                    { note with content := content }⟩, true)
              ∧ (∀ k2, k2 ≠ mid →
                  alookup (aset st.memories mid { note with content := content })
                      k2
                    = alookup st.memories k2)
              ∧ (aset st.memories mid
                  { note with content := content }).length
                  = st.memories.length) := by
  have hempty : (criteria.map (fun p => (p.1, PyVal.vStr p.2))).isEmpty
      = false := by
    cases criteria with
    | nil => exact absurd rfl hne
    | cons q t => rfl
  constructor
  · intro hfilter hfreshU
    have hfirst : updateByKeywords st content
        (criteria.map (fun p => (p.1, PyVal.vStr p.2))) uuid now pushOk
        = some (⟨st.memories
            ++ [(uuid, freshNote content criteria uuid now)]⟩, true) := by
      unfold updateByKeywords
      simp only [hempty, Bool.false_eq_true, if_false, hfilter, addNote,
        mkNote_unknown_criteria content criteria uuid now hunk hnd,
        Option.map_some']
      rw [show (freshNote content criteria uuid now).id = uuid from rfl,
        aset_fresh hfreshU]
    refine ⟨hfirst, rfl, rfl, ?_, by simp⟩
    have hfilter2 : filterByKeywords
        ⟨st.memories ++ [(uuid, freshNote content criteria uuid now)]⟩
        (criteria.map (fun p => (p.1, PyVal.vStr p.2))) = [uuid] := by
      rw [filterByKeywords_append st.memories
          [(uuid, freshNote content criteria uuid now)]]
      rw [show filterByKeywords ⟨st.memories⟩
          (criteria.map (fun p => (p.1, PyVal.vStr p.2))) = [] from hfilter]
      rw [filterByKeywords_singleton_match uuid
        (freshNote content criteria uuid now)
        (criteria.map (fun p => (p.1, PyVal.vStr p.2)))
        (show extrasMatchB (freshNote content criteria uuid now).extras
            (criteria.map (fun p => (p.1, PyVal.vStr p.2))) = true
          from extrasMatchB_self criteria hnd)]
      rfl
    have hlook2 : alookup
        (st.memories ++ [(uuid, freshNote content criteria uuid now)]) uuid
        = some (freshNote content criteria uuid now) := by
      rw [alookup_append_none hfreshU, alookup_cons]
      simp
    unfold updateByKeywords
    simp only [hempty, Bool.false_eq_true, if_false, hfilter2, sysUpdate,
      hlook2, List.foldl_cons, List.foldl_nil, setattrNote_content]
    rw [aset_append_of_none hfreshU]
    rw [show aset [(uuid, freshNote content criteria uuid now)] uuid
        { freshNote content criteria uuid now with content := content2 }
        = [(uuid, { freshNote content criteria uuid now
            with content := content2 })] from by simp [aset]]
  · intro mid rest note hfilter hnote
    have hupd : updateByKeywords st content
        (criteria.map (fun p => (p.1, PyVal.vStr p.2))) uuid now pushOk
        = some (⟨aset st.memories mid { note with content := content }⟩,
            true) := by
      unfold updateByKeywords
      simp only [hempty, Bool.false_eq_true, if_false, hfilter, sysUpdate,
        hnote, List.foldl_cons, List.foldl_nil, setattrNote_content]
    refine ⟨hupd, fun k2 hk2 => alookup_aset_ne st.memories mid k2 _ hk2, ?_⟩
    exact length_aset_of_mem (by rw [hnote]; rfl) _

/-- Witness for the amended C7 at a concrete empty system and the criteria
set `{project: "p"}`: the first call creates one record, the second call
rewrites its content and the record count stays at one. -/
theorem c7_upsert_by_attributes_amended_witness :
    updateByKeywords ⟨[]⟩ "c" [("project", PyVal.vStr "p")] "u1" 0 true
        = some (⟨[("u1", freshNote "c" [("project", "p")] "u1" 0)]⟩, true)
      ∧ (freshNote "c" [("project", "p")] "u1" 0).content = "c"
      ∧ (freshNote "c" [("project", "p")] "u1" 0).extras = [("project", "p")]
      ∧ updateByKeywords ⟨[("u1", freshNote "c" [("project", "p")] "u1" 0)]⟩
            "c2" [("project", PyVal.vStr "p")] "u2" 1 true
          = some (⟨[("u1", { freshNote "c" [("project", "p")] "u1" 0
              with content := "c2" })]⟩, true)
      ∧ ([("u1", freshNote "c" [("project", "p")] "u1" 0)]
          : List (String × MemoryNote)).length = 1 :=
  (c7_upsert_by_attributes_amended ⟨[]⟩ "c" "c2" [("project", "p")]
    "u1" "u2" 0 1 true (by decide) (by decide) (by decide)).1 rfl rfl

end Amem
